import Mathlib

/-!
Verification of the scene model of the `satisfied` 2D layout tool.

The development shallowly embeds `app/scene.go`: the object collection
(paths, buildings, text boxes), the reversible operation history
(do / undo / redo), hit-testing, and the versioned text codec
(`SaveToText` / `LoadFromText` / `decodeText`).

Collaborators of `scene.go` that live in other files of the repository
(the generic swap-delete / swap-insert slice helpers, the selection type,
the geometric predicates, the definition registries, and the numeric text
parser) are modelled from the specification; each such definition carries a
doc comment starting with `Modelled from the spec:`.

Conventions of the embedding:
- Go strings are modelled as `List Char` (named `Chars`).
- Go `float32` scalar fields are modelled as `Int`; the spec only requires
  of the numeric text layer that the parser accept the canonical decimal
  form produced by the encoder, which the integer formatter satisfies.
- Go panics (out-of-range indexing) are modelled totally with `getD` /
  no-op `set`; theorems carry in-range hypotheses where behaviour matters.
-/

namespace Satisfied

/-! ### Generic slice primitives (modelled collaborators) -/

/-- Modelled from the spec: `SwapDelete` (the single-index swap-removal the
bulk primitive is built from; not under `src/`) removes the element at
index `i` by moving the last element into slot `i` and dropping the last
slot.  Go panics on out-of-range `i`; here `List.set` is then a no-op and
all theorems keep `i` in range. -/
def SwapDelete {α : Type} (l : List α) (i : Nat) : List α :=
  match l.getLast? with
  | some lst => (l.set i lst).dropLast
  | none => []

/-- Modelled from the spec: `SwapDeleteMany` (`BulkSwapDelete`; not under
`src/`) removes the elements at the given indices using swap-with-last
semantics per removal, processing the index list from its end towards its
front so that, for ascending index lists, every requested index is removed
correctly despite the repositioning caused by earlier removals. -/
def SwapDeleteMany {α : Type} (l : List α) (idxs : List Nat) : List α :=
  idxs.foldr (fun i acc => SwapDelete acc i) l

/-- Modelled from the spec: `SwapInsert` (single-index inverse of
`SwapDelete`; not under `src/`): re-insert `v` at slot `i`, moving the
element currently there back to the end — exactly undoing one swap-removal.
If `i` is the length (the swap-removal had removed the last slot) the value
is appended. -/
def SwapInsert {α : Type} (l : List α) (i : Nat) (v : α) : List α :=
  match l[i]? with
  | some x => l.set i v ++ [x]
  | none => l ++ [v]

/-- Modelled from the spec: `SwapInsertMany` (`BulkSwapInsert`; not under
`src/`) replays the swap-deletions in reverse: it walks the index/value
pairs from the front of the lists, each step undoing the corresponding
swap-removal. -/
def SwapInsertMany {α : Type} (l : List α) (idxs : List Nat) (vals : List α) : List α :=
  (idxs.zip vals).foldl (fun acc p => SwapInsert acc p.1 p.2) l

/-- Modelled from the spec: `CopyIdxs` (`CopyByIndices`; not under `src/`)
appends `src[i]` for each `i` in `idxs`, preserving the order of `idxs`. -/
def CopyIdxs {α : Type} [Inhabited α] (dst src : List α) (idxs : List Nat) : List α :=
  dst ++ idxs.map (fun i => src.getD i default)

/-- Embeds the Go loop `for i, idx := range idxs { l[idx] = vals[i] }`
used by the modify operation (extra values beyond `idxs` are ignored,
out-of-range indices are no-ops; theorems keep everything aligned). -/
def setIdxs {α : Type} (l : List α) (idxs : List Nat) (vals : List α) : List α :=
  (idxs.zip vals).foldl (fun acc p => acc.set p.1 p.2) l

/-- Modelled from the spec: `Range` (not under `src/`) builds the index
list `[a, a+1, ..., b-1]`. -/
def Range (a b : Nat) : List Nat :=
  List.range' a (b - a)

/-! ### Data model -/

/-- Chars is the embedding of a Go string as its character list. -/
abbrev Chars := List Char

/-- Vec2 embeds `rl.Vector2`; scalars are modelled as `Int`. -/
structure Vec2 where
  x : Int
  y : Int
deriving DecidableEq, Repr, Inhabited

/-- Rect embeds `rl.Rectangle`; scalars are modelled as `Int`. -/
structure Rect where
  x : Int
  y : Int
  w : Int
  h : Int
deriving DecidableEq, Repr, Inhabited

/-- Path embeds the Go `Path` struct: definition index, start and end points. -/
structure Path where
  DefIdx : Nat
  Start : Vec2
  End : Vec2
deriving DecidableEq, Repr, Inhabited

/-- Building embeds the Go `Building` struct: definition index, position, rotation. -/
structure Building where
  DefIdx : Nat
  Pos : Vec2
  Rot : Int
deriving DecidableEq, Repr, Inhabited

/-- TextBox embeds the Go `TextBox` struct: bounds rectangle and text content. -/
structure TextBox where
  Bounds : Rect
  Content : Chars
deriving DecidableEq, Repr, Inhabited

/-- ObjectCollection embeds the Go `ObjectCollection`: three independent
ordered sequences, one per object kind. -/
structure ObjectCollection where
  Paths : List Path := []
  Buildings : List Building := []
  TextBoxes : List TextBox := []
deriving DecidableEq, Repr, Inhabited

/-- ObjectType embeds the Go object-kind tag; `none` is the zero value. -/
inductive ObjectType where
  | none
  | building
  | path
  | pathStart
  | pathEnd
  | textBox
deriving DecidableEq, Repr, Inhabited

/-- Object embeds the Go `Object` reference (kind + index); the zero
value `⟨.none, 0⟩` is the canonical empty reference.  The Go field is
named `Type`, which is reserved in Lean, hence lowercase `type`. -/
structure Object where
  type : ObjectType := .none
  Idx : Nat := 0
deriving DecidableEq, Repr, Inhabited

/-- Object.empty is the zero-valued `Object{}` of the Go code. -/
def Object.empty : Object := {}

/-- PathSel embeds the Go `PathSel` selection element: a path index plus
flags for the start and end endpoints. -/
structure PathSel where
  Idx : Nat
  Start : Bool
  End : Bool
deriving DecidableEq, Repr, Inhabited

/-- ObjectSelection is modelled from the spec (the selection type lives
outside `src/`): index sets into buildings and text boxes, a list of
`PathSel` triples, and a cached bounding rectangle. -/
structure ObjectSelection where
  PathIdxs : List PathSel := []
  BuildingIdxs : List Nat := []
  TextBoxIdxs : List Nat := []
  Bounds : Rect := {x := 0, y := 0, w := 0, h := 0}
deriving DecidableEq, Repr, Inhabited

/-- Modelled from the spec: full path indices — indices whose selection
element has both endpoint flags set (used by delete). -/
def ObjectSelection.FullPathIdxs (sel : ObjectSelection) : List Nat :=
  (sel.PathIdxs.filter (fun e => e.Start && e.End)).map (·.Idx)

/-- Modelled from the spec: any path indices — every index present in the
path selection regardless of flags (used by modify). -/
def ObjectSelection.AnyPathIdxs (sel : ObjectSelection) : List Nat :=
  sel.PathIdxs.map (·.Idx)

/-- Geom bundles the externally-owned geometric capability set the core
delegates to (bounds, point-containment tests with separate start/end
hit-zones for paths, rectangle union). Modelled from the spec: these live
outside `src/` and the core treats them as opaque. -/
structure Geom where
  checkStartPt : Path → Vec2 → Bool
  checkEndPt : Path → Vec2 → Bool
  checkBodyPt : Path → Vec2 → Bool
  buildingBounds : Building → Rect
  rectContains : Rect → Vec2 → Bool
  rectUnion : Rect → Rect → Rect
  pathSelBounds : Path → Bool → Bool → Rect

/-- Modelled from the spec: `recomputeBounds` (not under `src/`) replaces
the selection's cached rectangle with the union of the bounds of every
referenced object in the given collection; an empty selection yields the
zero rectangle. -/
def recomputeBounds (g : Geom) (sel : ObjectSelection) (col : ObjectCollection) :
    ObjectSelection :=
  let rects :=
    sel.PathIdxs.map (fun e => g.pathSelBounds (col.Paths.getD e.Idx default) e.Start e.End)
      ++ sel.BuildingIdxs.map (fun i => g.buildingBounds (col.Buildings.getD i default))
      ++ sel.TextBoxIdxs.map (fun i => (col.TextBoxes.getD i default).Bounds)
  match rects with
  | [] => { sel with Bounds := {x := 0, y := 0, w := 0, h := 0} }
  | r :: rs => { sel with Bounds := rs.foldl g.rectUnion r }

/-! ### Scene operations (undo / redo), from `app/scene.go` -/

/-- sceneOpType embeds the Go operation tag (`add` / `delete` / `modify`). -/
inductive sceneOpType where
  | add
  | delete
  | modify
deriving DecidableEq, Repr, Inhabited

/-- sceneOp embeds the Go `sceneOp` struct: operation tag, the selection it
acts on (empty for add), the prior objects (`Old`, empty for add) and the
new objects (`New`, empty for delete).  The Go field `Type` is lowercase
`type` here. -/
structure sceneOp where
  type : sceneOpType := .add
  Sel : ObjectSelection := {}
  Old : ObjectCollection := {}
  New : ObjectCollection := {}
deriving DecidableEq, Repr, Inhabited

/-- Scene embeds the Go `Scene` struct: the embedded object collection (a
named field `Col` here), operation history, history cursor, saved cursor,
and the hovered object reference. -/
structure Scene where
  Col : ObjectCollection := {}
  history : List sceneOp := []
  historyPos : Nat := 0
  savedHistoryPos : Nat := 0
  Hovered : Object := {}
  wasModified : Bool := false
deriving DecidableEq, Repr, Inhabited

/-- Embeds `sceneOp.do`: perform the operation on the scene's three
sequences (append for add, bulk swap-delete for delete, indexed overwrite
for modify). -/
def sceneOp.do (op : sceneOp) (s : Scene) : Scene :=
  match op.type with
  | .add =>
    { s with Col :=
      { Paths := s.Col.Paths ++ op.New.Paths
        Buildings := s.Col.Buildings ++ op.New.Buildings
        TextBoxes := s.Col.TextBoxes ++ op.New.TextBoxes } }
  | .delete =>
    { s with Col :=
      { Paths := SwapDeleteMany s.Col.Paths op.Sel.FullPathIdxs
        Buildings := SwapDeleteMany s.Col.Buildings op.Sel.BuildingIdxs
        TextBoxes := SwapDeleteMany s.Col.TextBoxes op.Sel.TextBoxIdxs } }
  | .modify =>
    { s with Col :=
      { Paths := setIdxs s.Col.Paths op.Sel.AnyPathIdxs op.New.Paths
        Buildings := setIdxs s.Col.Buildings op.Sel.BuildingIdxs op.New.Buildings
        TextBoxes := setIdxs s.Col.TextBoxes op.Sel.TextBoxIdxs op.New.TextBoxes } }

/-- Embeds `sceneOp.redo`: perform the operation and return the new
selection.  For add, the source computes `n := len(s.Paths)` only *after*
appending and then selects the path index range `[n, n+k)`; this is
embedded verbatim. -/
def sceneOp.redo (g : Geom) (op : sceneOp) (s : Scene) : Scene × ObjectSelection :=
  match op.type with
  | .add =>
    let s' := op.do s
    let newSel : ObjectSelection :=
      { BuildingIdxs :=
          Range (s'.Col.Buildings.length - op.New.Buildings.length) s'.Col.Buildings.length
        TextBoxIdxs :=
          Range (s'.Col.TextBoxes.length - op.New.TextBoxes.length) s'.Col.TextBoxes.length
        PathIdxs :=
          (List.range op.New.Paths.length).map
            (fun i => { Idx := s'.Col.Paths.length + i, Start := true, End := true }) }
    (s', recomputeBounds g newSel s'.Col)
  | .delete =>
    (op.do s, {})
  | .modify =>
    let s' := op.do s
    (s', recomputeBounds g op.Sel s'.Col)

/-- Embeds `sceneOp.undo`: reverse the operation and return the new
selection (zero-valued for add; `op.Sel` as stored for delete; `op.Sel`
with recomputed bounds for modify). -/
def sceneOp.undo (g : Geom) (op : sceneOp) (s : Scene) : Scene × ObjectSelection :=
  match op.type with
  | .add =>
    ({ s with Col :=
      { Paths := s.Col.Paths.take (s.Col.Paths.length - op.New.Paths.length)
        Buildings := s.Col.Buildings.take (s.Col.Buildings.length - op.New.Buildings.length)
        TextBoxes := s.Col.TextBoxes.take (s.Col.TextBoxes.length - op.New.TextBoxes.length) } },
     {})
  | .delete =>
    ({ s with Col :=
      { Paths := SwapInsertMany s.Col.Paths op.Sel.FullPathIdxs op.Old.Paths
        Buildings := SwapInsertMany s.Col.Buildings op.Sel.BuildingIdxs op.Old.Buildings
        TextBoxes := SwapInsertMany s.Col.TextBoxes op.Sel.TextBoxIdxs op.Old.TextBoxes } },
     op.Sel)
  | .modify =>
    let s' :=
      { s with Col :=
        { Paths := setIdxs s.Col.Paths op.Sel.AnyPathIdxs op.Old.Paths
          Buildings := setIdxs s.Col.Buildings op.Sel.BuildingIdxs op.Old.Buildings
          TextBoxes := setIdxs s.Col.TextBoxes op.Sel.TextBoxIdxs op.Old.TextBoxes } }
    (s', recomputeBounds g op.Sel s'.Col)

/-- Embeds `Scene.doSceneOp`: trim undone operations, perform the
operation, append it, advance the cursor, and clear the hovered object. -/
def Scene.doSceneOp (s : Scene) (op : sceneOp) : Scene :=
  let s0 := { s with history := s.history.take s.historyPos }
  let s1 := op.do s0
  { s1 with
    history := s0.history ++ [op]
    historyPos := s.historyPos + 1
    Hovered := {} }

/-- Embeds `Scene.AddPath`. -/
def Scene.AddPath (s : Scene) (path : Path) : Scene :=
  s.doSceneOp { type := .add, New := { Paths := [path] } }

/-- Embeds `Scene.AddBuilding`. -/
def Scene.AddBuilding (s : Scene) (building : Building) : Scene :=
  s.doSceneOp { type := .add, New := { Buildings := [building] } }

/-- Embeds `Scene.AddTextBox`. -/
def Scene.AddTextBox (s : Scene) (tb : TextBox) : Scene :=
  s.doSceneOp { type := .add, New := { TextBoxes := [tb] } }

/-- Embeds `Scene.AddObjects` (cloning is identity on immutable values). -/
def Scene.AddObjects (s : Scene) (col : ObjectCollection) : Scene :=
  s.doSceneOp { type := .add, New := col }

/-- Embeds `Scene.DeleteObjects`: snapshot `Old` from the full-path /
building / text-box indices, then apply. -/
def Scene.DeleteObjects (s : Scene) (sel : ObjectSelection) : Scene :=
  s.doSceneOp
    { type := .delete
      Sel := sel
      Old :=
        { Buildings := CopyIdxs [] s.Col.Buildings sel.BuildingIdxs
          Paths := CopyIdxs [] s.Col.Paths sel.FullPathIdxs
          TextBoxes := CopyIdxs [] s.Col.TextBoxes sel.TextBoxIdxs } }

/-- Embeds `Scene.ModifyObjects`: snapshot `Old` from the any-path /
building / text-box indices, then apply with the new values. -/
def Scene.ModifyObjects (s : Scene) (sel : ObjectSelection) (newCol : ObjectCollection) :
    Scene :=
  s.doSceneOp
    { type := .modify
      Sel := sel
      New := newCol
      Old :=
        { Buildings := CopyIdxs [] s.Col.Buildings sel.BuildingIdxs
          Paths := CopyIdxs [] s.Col.Paths sel.AnyPathIdxs
          TextBoxes := CopyIdxs [] s.Col.TextBoxes sel.TextBoxIdxs } }

/-- Embeds `Scene.Undo`: if the cursor is positive, step it back, clear the
hovered object and reverse the operation, returning the resulting scene
and the selection the reversed operation implies (the Go code hands the
selection to `selection.doInitSelection`, which lives outside the core). -/
def Scene.Undo (g : Geom) (s : Scene) : Bool × Scene × ObjectSelection :=
  if s.historyPos > 0 then
    let pos := s.historyPos - 1
    let op := s.history.getD pos default
    let s0 := { s with historyPos := pos, Hovered := {} }
    (true, op.undo g s0)
  else
    (false, s, {})

/-- Embeds `Scene.Redo`: if undone operations remain, clear the hovered
object, replay the operation at the cursor and advance it. -/
def Scene.Redo (g : Geom) (s : Scene) : Bool × Scene × ObjectSelection :=
  if s.historyPos < s.history.length then
    let op := s.history.getD s.historyPos default
    let s0 := { s with historyPos := s.historyPos + 1, Hovered := {} }
    (true, op.redo g s0)
  else
    (false, s, {})

/-- Embeds `Scene.HasUndo`. -/
def Scene.HasUndo (s : Scene) : Bool := s.historyPos > 0

/-- Embeds `Scene.HasRedo`. -/
def Scene.HasRedo (s : Scene) : Bool := s.historyPos < s.history.length

/-- Embeds `Scene.IsModified`. -/
def Scene.IsModified (s : Scene) : Bool := s.historyPos ≠ s.savedHistoryPos

/-! ### Hit-testing (`Scene.GetObjectAt`) -/

/-- Embeds the first loop of `GetObjectAt`: scan the selection's path
elements from the highest list position downwards (the list is passed
reversed), checking the start hit-zone (if its flag is set), then the end
hit-zone (if its flag is set), then the body. -/
def getAtSelPaths (g : Geom) (paths : List Path) (pos : Vec2) :
    List PathSel → Option Object
  | [] => none
  | elt :: rest =>
    let p := paths.getD elt.Idx default
    if elt.Start && g.checkStartPt p pos then some { type := .pathStart, Idx := elt.Idx }
    else if elt.End && g.checkEndPt p pos then some { type := .pathEnd, Idx := elt.Idx }
    else if g.checkBodyPt p pos then some { type := .path, Idx := elt.Idx }
    else getAtSelPaths g paths pos rest

/-- Embeds the selected-buildings loop of `GetObjectAt` (list passed reversed). -/
def getAtSelBuildings (g : Geom) (buildings : List Building) (pos : Vec2) :
    List Nat → Option Object
  | [] => none
  | i :: rest =>
    if g.rectContains (g.buildingBounds (buildings.getD i default)) pos then
      some { type := .building, Idx := i }
    else getAtSelBuildings g buildings pos rest

/-- Embeds the selected-text-boxes loop of `GetObjectAt` (list passed reversed). -/
def getAtSelTextBoxes (g : Geom) (textboxes : List TextBox) (pos : Vec2) :
    List Nat → Option Object
  | [] => none
  | i :: rest =>
    if g.rectContains (textboxes.getD i default).Bounds pos then
      some { type := .textBox, Idx := i }
    else getAtSelTextBoxes g textboxes pos rest

/-- Embeds the unselected-paths loop of `GetObjectAt`: indices descend from
`len-1` to `0` (passed as a reversed range), start and end hit-zones are
checked unconditionally before the body. -/
def getAtPaths (g : Geom) (paths : List Path) (pos : Vec2) :
    List Nat → Option Object
  | [] => none
  | i :: rest =>
    let p := paths.getD i default
    if g.checkStartPt p pos then some { type := .pathStart, Idx := i }
    else if g.checkEndPt p pos then some { type := .pathEnd, Idx := i }
    else if g.checkBodyPt p pos then some { type := .path, Idx := i }
    else getAtPaths g paths pos rest

/-- Embeds `Scene.GetObjectAt`: the six descending scans in priority order,
returning the zero-valued object when nothing matches.  The global
`selection` of the Go code is passed explicitly. -/
def GetObjectAt (g : Geom) (sel : ObjectSelection) (col : ObjectCollection) (pos : Vec2) :
    Object :=
  match getAtSelPaths g col.Paths pos sel.PathIdxs.reverse with
  | some o => o
  | none =>
  match getAtSelBuildings g col.Buildings pos sel.BuildingIdxs.reverse with
  | some o => o
  | none =>
  match getAtSelTextBoxes g col.TextBoxes pos sel.TextBoxIdxs.reverse with
  | some o => o
  | none =>
  match getAtPaths g col.Paths pos (List.range col.Paths.length).reverse with
  | some o => o
  | none =>
  match getAtSelBuildings g col.Buildings pos (List.range col.Buildings.length).reverse with
  | some o => o
  | none =>
  match getAtSelTextBoxes g col.TextBoxes pos (List.range col.TextBoxes.length).reverse with
  | some o => o
  | none => Object.empty

/-- Spec-side hit test for a single object reference: does the referenced
geometry contain the point?  (Written from the spec's words for the
refinement statement of the hit-testing claim.) -/
def hitTest (g : Geom) (col : ObjectCollection) (pos : Vec2) (o : Object) : Bool :=
  match o.type with
  | .pathStart => g.checkStartPt (col.Paths.getD o.Idx default) pos
  | .pathEnd => g.checkEndPt (col.Paths.getD o.Idx default) pos
  | .path => g.checkBodyPt (col.Paths.getD o.Idx default) pos
  | .building => g.rectContains (g.buildingBounds (col.Buildings.getD o.Idx default)) pos
  | .textBox => g.rectContains (col.TextBoxes.getD o.Idx default).Bounds pos
  | .none => false

/-- Spec-side candidate list, written from the spec's words: selected paths
(endpoint hit-zones before the body, only flagged endpoints), then selected
buildings, then selected text boxes, then all paths, buildings and text
boxes, each group from highest index to lowest. -/
def priorityCandidates (sel : ObjectSelection) (col : ObjectCollection) : List Object :=
  sel.PathIdxs.reverse.flatMap
      (fun e =>
        (if e.Start then [{ type := .pathStart, Idx := e.Idx }] else [])
          ++ (if e.End then [{ type := .pathEnd, Idx := e.Idx }] else [])
          ++ [{ type := .path, Idx := e.Idx }])
    ++ sel.BuildingIdxs.reverse.map (fun i => { type := .building, Idx := i })
    ++ sel.TextBoxIdxs.reverse.map (fun i => { type := .textBox, Idx := i })
    ++ (List.range col.Paths.length).reverse.flatMap
      (fun i =>
        [{ type := .pathStart, Idx := i }, { type := .pathEnd, Idx := i },
         { type := .path, Idx := i }])
    ++ (List.range col.Buildings.length).reverse.map (fun i => { type := .building, Idx := i })
    ++ (List.range col.TextBoxes.length).reverse.map (fun i => { type := .textBox, Idx := i })

/-- Spec-side hit-testing function, written from the spec's words: the
first candidate in priority order whose geometry contains the point, or the
empty reference. -/
def specObjectAt (g : Geom) (sel : ObjectSelection) (col : ObjectCollection) (pos : Vec2) :
    Object :=
  ((priorityCandidates sel col).find? (hitTest g col pos)).getD Object.empty

/-! ### Numeric text form (modelled collaborator) -/

/-- digitVal maps a decimal digit character to its value. -/
def digitVal (c : Char) : Nat := c.toNat - 48

/-- valOfDigits folds a big-endian digit string into its value. -/
def valOfDigits (cs : Chars) : Nat :=
  cs.foldl (fun acc c => 10 * acc + digitVal c) 0

/-- natDigitsAux emits the base-10 digits of `n` (most significant first),
with structural fuel so that it reduces definitionally. -/
def natDigitsAux : Nat → Nat → Chars
  | 0, _ => []
  | _, 0 => []
  | fuel + 1, n => natDigitsAux fuel (n / 10) ++ [Nat.digitChar (n % 10)]

/-- Modelled from the spec: formatNat is the canonical decimal text form of
a natural number, as the Go `%v` / `%d` verbs produce for the modelled
integer scalars. -/
def formatNat (n : Nat) : Chars :=
  if n = 0 then ['0'] else natDigitsAux (n + 1) n

/-- Modelled from the spec: formatInt prefixes a minus sign for negative
values. -/
def formatInt (n : Int) : Chars :=
  if n < 0 then '-' :: formatNat n.natAbs else formatNat n.natAbs

/-- parseNatStrict accepts exactly a non-empty all-digit string
(the strict numeric token parser of the modelled `ParseFloat32`). -/
def parseNatStrict (cs : Chars) : Option Nat :=
  if cs ≠ [] ∧ cs.all Char.isDigit then some (valOfDigits cs) else none

/-- Modelled from the spec: parseIntStrict is the locale-independent
numeric field parser (`ParseFloat32` / the `Sscanf` number verbs, not under
`src/`): an optional minus sign followed by a non-empty digit string, the
whole token consumed. -/
def parseIntStrict (cs : Chars) : Option Int :=
  if cs.headD 'x' = '-' then (parseNatStrict cs.tail).map (fun n => -(n : Int))
  else (parseNatStrict cs).map (fun n => (n : Int))

/-- parseNatLead reads a maximal leading digit run (at least one digit) and
ignores the rest, as `fmt.Sscanf`'s `%d` does on the version line. -/
def parseNatLead (cs : Chars) : Option Nat :=
  let ds := cs.takeWhile Char.isDigit
  if ds.isEmpty then none else some (valOfDigits ds)

/-- Modelled from the spec: parseIntLead is the `Sscanf` `%d` verb used on
the version line — optional minus sign, at least one digit, trailing
characters ignored. -/
def parseIntLead (cs : Chars) : Option Int :=
  if cs.headD 'x' = '-' then (parseNatLead cs.tail).map (fun n => -(n : Int))
  else (parseNatLead cs).map (fun n => (n : Int))

/-! ### Quoting (modelled collaborator) -/

/-- escChar escapes one character for the quoted text-box content: the
backslash, the double quote and the newline get a backslash escape,
everything else is emitted verbatim. -/
def escChar (c : Char) : Chars :=
  if c = '\\' then ['\\', '\\']
  else if c = '"' then ['\\', '"']
  else if c = '\n' then ['\\', 'n']
  else [c]

/-- Modelled from the spec: goQuote is the reversible C-style quoting
scheme of `strconv.Quote` (not under `src/`), restricted to the escapes the
round trip needs. -/
def goQuote (s : Chars) : Chars :=
  '"' :: s.flatMap escChar ++ ['"']

/-- unescChar maps an escape letter back to the escaped character. -/
def unescChar (c : Char) : Option Char :=
  if c = '\\' then some '\\'
  else if c = '"' then some '"'
  else if c = 'n' then some '\n'
  else none

/-- unquoteAux consumes the interior of a quoted string: a closing quote
must end the input, escapes are decoded, a dangling backslash or a missing
closing quote fails. -/
def unquoteAux (acc : Chars) : Chars → Option Chars
  | [] => none
  | c :: rest =>
    if c = '"' then if rest.isEmpty then some acc.reverse else none
    else if c = '\\' then
      match rest with
      | [] => none
      | e :: rest2 =>
        match unescChar e with
        | some u => unquoteAux (u :: acc) rest2
        | none => none
    else unquoteAux (c :: acc) rest

/-- Modelled from the spec: goUnquote is `strconv.Unquote` (not under
`src/`) for the quoting scheme above: the input must start with a quote,
and the matching close quote must be the final character. -/
def goUnquote (cs : Chars) : Option Chars :=
  if cs.headD 'x' = '"' then unquoteAux [] cs.tail else none

/-! ### Line and field splitting (modelled stdlib collaborators) -/

/-- splitOnChar splits a character list on a separator, like
`strings.Split` / the line scanner; the result is always non-empty. -/
def splitOnChar (sep : Char) : Chars → List Chars
  | [] => [[]]
  | c :: rest =>
    match splitOnChar sep rest with
    | [] => [[]]
    | cur :: done => if c = sep then [] :: cur :: done else (c :: cur) :: done

/-- cutChar embeds `strings.Cut`: the part before the first separator and
the part after it (the whole input and an empty rest when absent). -/
def cutChar (sep : Char) : Chars → Chars × Chars
  | [] => ([], [])
  | c :: rest =>
    if c = sep then ([], rest)
    else
      let p := cutChar sep rest
      (c :: p.1, p.2)

/-- splitNChar embeds `strings.SplitN`: at most `n` pieces, the last piece
keeping the remaining separators. -/
def splitNChar (sep : Char) : Nat → Chars → List Chars
  | 0, _ => []
  | 1, l => [l]
  | n + 2, l =>
    if l.contains sep then
      let p := cutChar sep l
      p.1 :: splitNChar sep (n + 1) p.2
    else [l]

/-! ### Text codec (`SaveToText` / `LoadFromText` / `decodeText`) -/

/-- tagVersion embeds the `#VERSION` constant. -/
def tagVersion : Chars := ['#', 'V', 'E', 'R', 'S', 'I', 'O', 'N']

/-- textboxClass embeds the `TextBox` class-name constant. -/
def textboxClass : Chars := ['T', 'e', 'x', 't', 'B', 'o', 'x']

/-- Modelled from the spec: `version` is the current format version
constant (only version 0 is implemented). -/
def version : Int := 0

/-- Modelled from the spec: listIndex is the definitions-registry lookup
`Index(className)` (not under `src/`): the position of the exact string
match, if any (Go returns `-1` for absent; the code only compares with
`>= 0`, which `Option` models). -/
def listIndex (l : List Chars) (cls : Chars) : Option Nat :=
  match l with
  | [] => none
  | y :: ys => if y = cls then some 0 else (listIndex ys cls).map (· + 1)

/-- encodeBuildingLine renders one building line
`<class> <posX> <posY> <rotation>`. -/
def encodeBuildingLine (bd : List Chars) (b : Building) : Chars :=
  bd.getD b.DefIdx []
    ++ ' ' :: (formatInt b.Pos.x ++ ' ' :: (formatInt b.Pos.y ++ ' ' :: formatInt b.Rot))

/-- encodePathLine renders one path line
`<class> <startX> <startY> <endX> <endY>`. -/
def encodePathLine (pd : List Chars) (p : Path) : Chars :=
  pd.getD p.DefIdx []
    ++ ' ' :: (formatInt p.Start.x ++ ' ' :: (formatInt p.Start.y
      ++ ' ' :: (formatInt p.End.x ++ ' ' :: formatInt p.End.y)))

/-- encodeTextBoxLine renders one text-box line
`TextBox <x> <y> <width> <height> <quoted-content>`. -/
def encodeTextBoxLine (tb : TextBox) : Chars :=
  textboxClass
    ++ ' ' :: (formatInt tb.Bounds.x ++ ' ' :: (formatInt tb.Bounds.y
      ++ ' ' :: (formatInt tb.Bounds.w ++ ' ' :: (formatInt tb.Bounds.h
        ++ ' ' :: goQuote tb.Content))))

/-- Embeds `Scene.SaveToText`: the version header, then one line per
building, per path and per text box, in collection order, each line
terminated by a newline.  The definition registries of the Go globals are
passed explicitly. -/
def SaveToText (pd bd : List Chars) (col : ObjectCollection) : Chars :=
  (tagVersion ++ '=' :: formatInt version)
    ++ '\n' :: (col.Buildings.flatMap (fun b => encodeBuildingLine bd b ++ ['\n'])
      ++ (col.Paths.flatMap (fun p => encodePathLine pd p ++ ['\n'])
        ++ col.TextBoxes.flatMap (fun tb => encodeTextBoxLine tb ++ ['\n'])))

/-- DecodeTextError embeds the Go `DecodeTextError`: categorized message,
presence of a wrapped low-level error (the Go `Err error` field, modelled
as a flag), 1-based line number and attempted version. -/
structure DecodeTextError where
  Msg : String
  Err : Bool := false
  Line : Nat := 0
  Version : Int := 0
deriving DecidableEq, Repr, Inhabited

/-- msgEmpty embeds the Go error-message constant. -/
def msgEmpty : String := "empty file"

/-- msgInvalidVersionLine embeds the Go error-message constant. -/
def msgInvalidVersionLine : String := "invalid first line, expected #VERSION=x"

/-- msgInvalidVersionNumber embeds the Go error-message constant. -/
def msgInvalidVersionNumber : String := "invalid version, expected a positive integer"

/-- msgVersionTooHigh embeds the Go error-message constant. -/
def msgVersionTooHigh : String := "version is too high"

/-- msgInvalidPath embeds the Go error-message constant. -/
def msgInvalidPath : String := "invalid path line"

/-- msgInvalidBuilding embeds the Go error-message constant. -/
def msgInvalidBuilding : String := "invalid building line"

/-- msgInvalidTextBox embeds the Go error-message constant. -/
def msgInvalidTextBox : String := "invalid textbox line"

/-- msgInvalidClass embeds the Go error-message constant. -/
def msgInvalidClass : String := "unknown class"

deriving instance DecidableEq for Except

/-- SceneObj is the per-line decoding result: exactly one object of one of
the three kinds. -/
inductive SceneObj where
  | path (p : Path)
  | building (b : Building)
  | textbox (tb : TextBox)
deriving DecidableEq, Repr, Inhabited

/-- ObjectCollection.push appends a decoded object to the sequence of its
kind, as `decodeText` appends into the scene. -/
def ObjectCollection.push (col : ObjectCollection) : SceneObj → ObjectCollection
  | .path p => { col with Paths := col.Paths ++ [p] }
  | .building b => { col with Buildings := col.Buildings ++ [b] }
  | .textbox tb => { col with TextBoxes := col.TextBoxes ++ [tb] }

/-- decodeLine decodes one non-blank content line of `decodeText`: split
off the class token, dispatch on `TextBox`, then the path registry, then
the building registry; errors carry the categorized message, the attempted
version and the wrapped-error flag (`Line` is filled in by the caller).
The numeric fields follow the spec: exactly 4 for a path line, exactly 3
for a building line, exactly 5 fields for a text-box line. -/
def decodeLine (pd bd : List Chars) (ver : Int) (line : Chars) :
    Except DecodeTextError SceneObj :=
  let c := cutChar ' ' line
  let cls := c.1
  let fields := c.2
  if cls = textboxClass then
    match splitNChar ' ' 5 fields with
    | [e0, e1, e2, e3, e4] =>
      match parseIntStrict e0, parseIntStrict e1, parseIntStrict e2, parseIntStrict e3,
          goUnquote e4 with
      | some x, some y, some w, some h, some content =>
        .ok (.textbox { Bounds := { x := x, y := y, w := w, h := h }, Content := content })
      | _, _, _, _, _ => .error { Msg := msgInvalidTextBox, Err := true, Version := ver }
    | _ => .error { Msg := msgInvalidTextBox, Err := false, Version := ver }
  else
    match listIndex pd cls with
    | some defIdx =>
      match splitOnChar ' ' fields with
      | [e0, e1, e2, e3] =>
        match parseIntStrict e0, parseIntStrict e1, parseIntStrict e2, parseIntStrict e3 with
        | some sx, some sy, some ex, some ey =>
          .ok (.path { DefIdx := defIdx, Start := { x := sx, y := sy },
                       End := { x := ex, y := ey } })
        | _, _, _, _ => .error { Msg := msgInvalidPath, Err := true, Version := ver }
      | _ => .error { Msg := msgInvalidPath, Err := true, Version := ver }
    | none =>
      match listIndex bd cls with
      | some defIdx =>
        match splitOnChar ' ' fields with
        | [e0, e1, e2] =>
          match parseIntStrict e0, parseIntStrict e1, parseIntStrict e2 with
          | some x, some y, some rot =>
            .ok (.building { DefIdx := defIdx, Pos := { x := x, y := y }, Rot := rot })
          | _, _, _ => .error { Msg := msgInvalidBuilding, Err := true, Version := ver }
        | _ => .error { Msg := msgInvalidBuilding, Err := true, Version := ver }
      | none => .error { Msg := msgInvalidClass, Err := false, Version := ver }

/-- decodeLines is the scanning loop of `decodeText`: blank lines are
skipped without advancing the line counter `no` (which starts at 2); every
successfully decoded line appends its object and advances the counter;
the first failing line aborts with its error stamped with `no`. -/
def decodeLines (pd bd : List Chars) (ver : Int) :
    List Chars → Nat → ObjectCollection → Except DecodeTextError ObjectCollection
  | [], _, col => .ok col
  | line :: rest, no, col =>
    if line.isEmpty then decodeLines pd bd ver rest no col
    else
      match decodeLine pd bd ver line with
      | .error e => .error { e with Line := no }
      | .ok obj => decodeLines pd bd ver rest (no + 1) (col.push obj)

/-- Embeds `Scene.decodeText`: decode every remaining line, starting the
line counter at 2. -/
def decodeText (pd bd : List Chars) (ver : Int) (col : ObjectCollection)
    (lines : List Chars) : Except DecodeTextError ObjectCollection :=
  decodeLines pd bd ver lines 2 col

/-- Embeds `Scene.LoadFromText`: read the first line; an empty first line
is the empty-file error; the line must parse as `#VERSION=<int>` (the
`Sscanf` failure wraps a low-level error); negative versions and versions
above 0 are rejected; version 0 decodes the remaining lines into the given
collection. -/
def LoadFromText (pd bd : List Chars) (col : ObjectCollection) (text : Chars) :
    Except DecodeTextError ObjectCollection :=
  let lines := splitOnChar '\n' text
  let line := lines.headD []
  if line.isEmpty then .error { Msg := msgEmpty }
  else
    match
      match line.dropPrefix? (tagVersion ++ ['=']) with
      | some rest => parseIntLead rest
      | none => none
    with
    | none => .error { Msg := msgInvalidVersionLine, Err := true, Line := 1 }
    | some ver =>
      if ver < 0 then .error { Msg := msgInvalidVersionNumber, Line := 1 }
      else if ver = 0 then decodeText pd bd ver col (lines.drop 1)
      else .error { Msg := msgVersionTooHigh, Version := ver, Line := 1 }

/-! ### Lemmas about the swap primitives -/

theorem set_self_of_getElem? {α : Type} (l : List α) (i : Nat) (v : α)
    (h : l[i]? = some v) : l.set i v = l := by
  apply List.ext_getElem?
  intro p
  by_cases hp : p = i
  · subst hp
    have hi : p < l.length := (List.getElem?_eq_some_iff.mp h).1
    rw [List.getElem?_set_self hi, h]
  · exact List.getElem?_set_ne (fun hc => hp hc.symm)

theorem swapDelete_length {α : Type} (l : List α) (i : Nat) (h : l ≠ []) :
    (SwapDelete l i).length = l.length - 1 := by
  unfold SwapDelete
  cases hl : l.getLast? with
  | none => exact absurd (List.getLast?_eq_none_iff.mp hl) h
  | some lst => simp

theorem swapDelete_getElem?_of_lt {α : Type} (l : List α) (i p : Nat)
    (hp : p < l.length - 1) (hne : p ≠ i) :
    (SwapDelete l i)[p]? = l[p]? := by
  unfold SwapDelete
  cases hl : l.getLast? with
  | none =>
    have : l = [] := List.getLast?_eq_none_iff.mp hl
    subst this
    simp at hp
  | some lst =>
    rw [List.getElem?_dropLast]
    simp only [List.length_set]
    rw [if_pos hp]
    exact List.getElem?_set_ne (fun hc => hne hc.symm)

theorem dropLast_set_comm {α : Type} (l : List α) (i : Nat) (v : α)
    (hi : i < l.length - 1) : (l.set i v).dropLast = l.dropLast.set i v := by
  apply List.ext_getElem?
  intro p
  rw [List.getElem?_dropLast, List.length_set]
  by_cases hp : p < l.length - 1
  · rw [if_pos hp]
    by_cases hpi : p = i
    · subst hpi
      rw [List.getElem?_set_self (by omega), List.getElem?_set_self]
      rw [List.length_dropLast]
      exact hp
    · rw [List.getElem?_set_ne (fun hc => hpi hc.symm),
        List.getElem?_set_ne (fun hc => hpi hc.symm), List.getElem?_dropLast, if_pos hp]
  · rw [if_neg hp]
    symm
    rw [List.getElem?_eq_none_iff]
    simp only [List.length_set, List.length_dropLast]
    omega

theorem dropLast_set_last {α : Type} (l : List α) (i : Nat) (v : α)
    (hi : i = l.length - 1) : (l.set i v).dropLast = l.dropLast := by
  apply List.ext_getElem?
  intro p
  rw [List.getElem?_dropLast, List.getElem?_dropLast, List.length_set]
  by_cases hp : p < l.length - 1
  · rw [if_pos hp, if_pos hp]
    exact List.getElem?_set_ne (by omega)
  · rw [if_neg hp, if_neg hp]

theorem swapInsert_swapDelete {α : Type} (l : List α) (i : Nat) (v : α)
    (hi : i < l.length) (hv : l[i]? = some v) :
    SwapInsert (SwapDelete l i) i v = l := by
  have hne : l ≠ [] := by
    intro h
    subst h
    simp at hi
  have hlast : l.getLast? = some (l.getLast hne) := List.getLast?_eq_getLast l hne
  have hdel : SwapDelete l i = (l.set i (l.getLast hne)).dropLast := by
    unfold SwapDelete
    rw [hlast]
  by_cases hil : i = l.length - 1
  · -- the removed slot was the last one: re-insertion appends
    have hd : SwapDelete l i = l.dropLast := by
      rw [hdel, dropLast_set_last l i _ hil]
    have hnone : (SwapDelete l i)[i]? = none := by
      rw [List.getElem?_eq_none_iff, hd, List.length_dropLast]
      omega
    unfold SwapInsert
    rw [hnone, hd]
    have hvlast : l.getLast hne = v := by
      have h1 : l.getLast? = l[l.length - 1]? := List.getLast?_eq_getElem? l
      rw [hlast, ← hil, hv] at h1
      exact Option.some.inj h1
    rw [← hvlast]
    exact List.dropLast_concat_getLast hne
  · -- the removed slot was interior: set back and move the tail element home
    have hil' : i < l.length - 1 := by omega
    have hsome : (SwapDelete l i)[i]? = some (l.getLast hne) := by
      rw [hdel, List.getElem?_dropLast, List.length_set, if_pos hil']
      exact List.getElem?_set_self hi
    unfold SwapInsert
    rw [hsome]
    have hset : (SwapDelete l i).set i v = l.dropLast := by
      rw [hdel, dropLast_set_comm _ _ _ hil', List.set_set]
      apply set_self_of_getElem?
      rw [List.getElem?_dropLast, if_pos hil']
      exact hv
    rw [hset]
    exact List.dropLast_concat_getLast hne

theorem sorted_head_gap (i : Nat) (rest : List Nat) (n : Nat)
    (hs : (i :: rest).Pairwise (· < ·)) (hb : ∀ j ∈ i :: rest, j < n) :
    i + rest.length < n := by
  induction rest generalizing i with
  | nil =>
    have := hb i (by simp)
    simpa using this
  | cons r rs ih =>
    have hir : i < r := (List.pairwise_cons.mp hs).1 r (by simp)
    have hs' : (r :: rs).Pairwise (· < ·) := (List.pairwise_cons.mp hs).2
    have hb' : ∀ j ∈ r :: rs, j < n := fun j hj => hb j (by simp [hj])
    have := ih r hs' hb'
    simp only [List.length_cons]
    omega

theorem swapDeleteMany_cons {α : Type} (l : List α) (i : Nat) (rest : List Nat) :
    SwapDeleteMany l (i :: rest) = SwapDelete (SwapDeleteMany l rest) i := rfl

theorem swapDeleteMany_length {α : Type} (l : List α) (idxs : List Nat)
    (hs : idxs.Pairwise (· < ·)) (hb : ∀ j ∈ idxs, j < l.length) :
    (SwapDeleteMany l idxs).length = l.length - idxs.length := by
  induction idxs with
  | nil => rfl
  | cons i rest ih =>
    have hs' : rest.Pairwise (· < ·) := (List.pairwise_cons.mp hs).2
    have hb' : ∀ j ∈ rest, j < l.length := fun j hj => hb j (by simp [hj])
    have hlen : (SwapDeleteMany l rest).length = l.length - rest.length := ih hs' hb'
    have hgap : i + rest.length < l.length := sorted_head_gap i rest l.length hs hb
    rw [swapDeleteMany_cons, swapDelete_length, hlen]
    · simp only [List.length_cons]
      omega
    · intro hnil
      rw [hnil] at hlen
      simp at hlen
      omega

theorem swapDeleteMany_getElem?_below {α : Type} (l : List α) (idxs : List Nat) (p : Nat)
    (hs : idxs.Pairwise (· < ·)) (hb : ∀ j ∈ idxs, j < l.length)
    (hp : ∀ j ∈ idxs, p < j) (hplen : p < l.length - idxs.length) :
    (SwapDeleteMany l idxs)[p]? = l[p]? := by
  induction idxs with
  | nil => rfl
  | cons i rest ih =>
    have hs' : rest.Pairwise (· < ·) := (List.pairwise_cons.mp hs).2
    have hb' : ∀ j ∈ rest, j < l.length := fun j hj => hb j (by simp [hj])
    have hp' : ∀ j ∈ rest, p < j := fun j hj => hp j (by simp [hj])
    have hplen' : p < l.length - rest.length := by
      simp only [List.length_cons] at hplen
      omega
    have hlen : (SwapDeleteMany l rest).length = l.length - rest.length :=
      swapDeleteMany_length l rest hs' hb'
    rw [swapDeleteMany_cons, swapDelete_getElem?_of_lt, ih hs' hb' hp' hplen']
    · rw [hlen]
      simp only [List.length_cons] at hplen
      omega
    · exact Nat.ne_of_lt (hp i (by simp))

theorem copyIdxs_cons {α : Type} [Inhabited α] (src : List α) (i : Nat) (rest : List Nat) :
    CopyIdxs [] src (i :: rest) = src.getD i default :: CopyIdxs [] src rest := by
  simp [CopyIdxs]

/-- The bulk swap-insert undoes the bulk swap-delete: for a strictly
ascending in-range index list, re-inserting the originally removed values
restores the original sequence exactly. -/
theorem swapInsertMany_swapDeleteMany {α : Type} [Inhabited α]
    (l : List α) (idxs : List Nat)
    (hs : idxs.Pairwise (· < ·)) (hb : ∀ j ∈ idxs, j < l.length) :
    SwapInsertMany (SwapDeleteMany l idxs) idxs (CopyIdxs [] l idxs) = l := by
  induction idxs with
  | nil => rfl
  | cons i rest ih =>
    have hs' : rest.Pairwise (· < ·) := (List.pairwise_cons.mp hs).2
    have hb' : ∀ j ∈ rest, j < l.length := fun j hj => hb j (by simp [hj])
    have hi : i < l.length := hb i (by simp)
    have hgap : i + rest.length < l.length := sorted_head_gap i rest l.length hs hb
    have hlen : (SwapDeleteMany l rest).length = l.length - rest.length :=
      swapDeleteMany_length l rest hs' hb'
    have hilt : i < (SwapDeleteMany l rest).length := by omega
    have hval : (SwapDeleteMany l rest)[i]? = some (l.getD i default) := by
      rw [swapDeleteMany_getElem?_below l rest i hs'
        hb' (fun j hj => (List.pairwise_cons.mp hs).1 j hj) (by omega)]
      rw [List.getD_eq_getElem?_getD, List.getElem?_eq_getElem hi]
      rfl
    rw [copyIdxs_cons, swapDeleteMany_cons]
    show SwapInsertMany
      (SwapDelete (SwapDeleteMany l rest) i)
      (i :: rest) (l.getD i default :: CopyIdxs [] l rest) = l
    have hstep : ∀ (m : List α) (v : α) (vs : List α),
        SwapInsertMany m (i :: rest) (v :: vs) = SwapInsertMany (SwapInsert m i v) rest vs := by
      intro m v vs
      rfl
    rw [hstep, swapInsert_swapDelete _ _ _ hilt hval]
    exact ih hs' hb'

/-! ### Lemmas about indexed overwriting (the modify operation) -/

theorem setIdxs_nil_vals {α : Type} (l : List α) (idxs : List Nat) :
    setIdxs l idxs [] = l := by
  simp [setIdxs]

theorem setIdxs_cons {α : Type} (l : List α) (i : Nat) (rest : List Nat) (v : α)
    (vs : List α) : setIdxs l (i :: rest) (v :: vs) = setIdxs (l.set i v) rest vs := rfl

theorem setIdxs_length {α : Type} (idxs : List Nat) (vals : List α) (l : List α) :
    (setIdxs l idxs vals).length = l.length := by
  induction idxs generalizing l vals with
  | nil => rfl
  | cons i rest ih =>
    cases vals with
    | nil => rw [setIdxs_nil_vals]
    | cons v vs => rw [setIdxs_cons, ih, List.length_set]

theorem setIdxs_getElem?_not_mem {α : Type} (idxs : List Nat) (vals : List α) (l : List α)
    (p : Nat) (hp : p ∉ idxs) : (setIdxs l idxs vals)[p]? = l[p]? := by
  induction idxs generalizing l vals with
  | nil => rfl
  | cons i rest ih =>
    cases vals with
    | nil => rw [setIdxs_nil_vals]
    | cons v vs =>
      rw [setIdxs_cons, ih vs (l.set i v) (fun h => hp (by simp [h]))]
      exact List.getElem?_set_ne (fun h => hp (by simp [h]))

theorem setIdxs_restore {α : Type} [Inhabited α] (idxs : List Nat) (l m : List α)
    (hlen : m.length = l.length) (hout : ∀ p, p ∉ idxs → m[p]? = l[p]?)
    (hb : ∀ i ∈ idxs, i < l.length) :
    setIdxs m idxs (idxs.map (fun i => l.getD i default)) = l := by
  induction idxs generalizing m with
  | nil =>
    apply List.ext_getElem?
    intro p
    exact hout p (by simp)
  | cons i rest ih =>
    have hi : i < l.length := hb i (by simp)
    rw [List.map_cons, setIdxs_cons]
    apply ih (m.set i (l.getD i default))
    · rw [List.length_set, hlen]
    · intro p hp
      by_cases hpi : p = i
      · subst hpi
        rw [List.getElem?_set_self (by omega), List.getD_eq_getElem?_getD,
          List.getElem?_eq_getElem hi]
        rfl
      · rw [List.getElem?_set_ne (fun h => hpi h.symm)]
        exact hout p (by simp [hpi, hp])
    · exact fun j hj => hb j (by simp [hj])

theorem copyIdxs_eq_map {α : Type} [Inhabited α] (src : List α) (idxs : List Nat) :
    CopyIdxs [] src idxs = idxs.map (fun i => src.getD i default) := by
  simp [CopyIdxs]

/-- Overwriting at some indices and then writing back the original values
captured from those indices restores the original sequence. -/
theorem setIdxs_setIdxs_restore {α : Type} [Inhabited α] (idxs : List Nat)
    (l newVals : List α) (hb : ∀ i ∈ idxs, i < l.length) :
    setIdxs (setIdxs l idxs newVals) idxs (CopyIdxs [] l idxs) = l := by
  rw [copyIdxs_eq_map]
  apply setIdxs_restore
  · exact setIdxs_length idxs newVals l
  · exact fun p hp => setIdxs_getElem?_not_mem idxs newVals l p hp
  · exact hb

/-! ### Scene-level helper lemmas -/

theorem sceneOp_do_history (op : sceneOp) (s : Scene) : (op.do s).history = s.history := by
  cases hty : op.type <;> simp [sceneOp.do, hty]

theorem sceneOp_do_historyPos (op : sceneOp) (s : Scene) :
    (op.do s).historyPos = s.historyPos := by
  cases hty : op.type <;> simp [sceneOp.do, hty]

theorem sceneOp_do_col_congr (op : sceneOp) (s t : Scene) (h : s.Col = t.Col) :
    (op.do s).Col = (op.do t).Col := by
  cases hty : op.type <;> simp [sceneOp.do, hty, h]

theorem sceneOp_undo_hovered (g : Geom) (op : sceneOp) (s : Scene) :
    ((op.undo g s).1).Hovered = s.Hovered := by
  cases hty : op.type <;> simp [sceneOp.undo, hty]

theorem sceneOp_redo_hovered (g : Geom) (op : sceneOp) (s : Scene) :
    ((op.redo g s).1).Hovered = s.Hovered := by
  cases hty : op.type <;> simp [sceneOp.redo, hty, sceneOp.do]

theorem doSceneOp_proj (s : Scene) (op : sceneOp) :
    (s.doSceneOp op).history = s.history.take s.historyPos ++ [op]
      ∧ (s.doSceneOp op).historyPos = s.historyPos + 1
      ∧ (s.doSceneOp op).Hovered = Object.empty
      ∧ (s.doSceneOp op).Col = (op.do s).Col := by
  refine ⟨?_, rfl, rfl, ?_⟩
  · show ({ s with history := s.history.take s.historyPos } : Scene).history ++ [op] = _
    rfl
  · exact sceneOp_do_col_congr op { s with history := s.history.take s.historyPos } s rfl

/-! ### Claim C5 — bulk swap-delete / swap-insert inverse -/

/-- C5: for every sequence, deleting a strictly ascending in-range set of
indices with `SwapDeleteMany` and then calling `SwapInsertMany` on the
result with the same indices and the originally removed values (as
captured by `CopyIdxs`) reproduces the original sequence exactly,
including order at untouched positions. -/
theorem C5_swap_delete_insert_roundtrip {α : Type} [Inhabited α]
    (l : List α) (idxs : List Nat)
    (hs : idxs.Pairwise (· < ·)) (hb : ∀ j ∈ idxs, j < l.length) :
    SwapInsertMany (SwapDeleteMany l idxs) idxs (CopyIdxs [] l idxs) = l :=
  swapInsertMany_swapDeleteMany l idxs hs hb

/-- C5 witness: indices `{1, 3}` of the 5-element sequence
`[10, 20, 30, 40, 50]`. -/
theorem C5_swap_delete_insert_roundtrip_witness :
    ([1, 3] : List Nat).Pairwise (· < ·)
      ∧ (∀ j ∈ [1, 3], j < ([10, 20, 30, 40, 50] : List Nat).length)
      ∧ SwapInsertMany (SwapDeleteMany ([10, 20, 30, 40, 50] : List Nat) [1, 3]) [1, 3]
          (CopyIdxs [] [10, 20, 30, 40, 50] [1, 3]) = [10, 20, 30, 40, 50] :=
  ⟨by decide, by decide,
    C5_swap_delete_insert_roundtrip [10, 20, 30, 40, 50] [1, 3] (by decide) (by decide)⟩

/-! ### Claim C6 — applying a new operation truncates the undone suffix -/

/-- C6: with the history invariant `historyPos ≤ |history|`, applying any
operation through `doSceneOp` first discards the undone suffix (the
history becomes the done prefix plus the new operation), then increments
the cursor; afterwards `HasRedo` is false. -/
theorem C6_apply_truncates_redo (s : Scene) (op : sceneOp)
    (h : s.historyPos ≤ s.history.length) :
    (s.doSceneOp op).history = s.history.take s.historyPos ++ [op]
      ∧ (s.doSceneOp op).historyPos = s.historyPos + 1
      ∧ (s.doSceneOp op).HasRedo = false := by
  obtain ⟨hh, hp, _, _⟩ := doSceneOp_proj s op
  refine ⟨hh, hp, ?_⟩
  rw [Scene.HasRedo, hh, hp]
  simp only [List.length_append, List.length_take, List.length_cons, List.length_nil]
  have : min s.historyPos s.history.length = s.historyPos := Nat.min_eq_left h
  rw [this]
  simp

/-- C6 witness: a scene with two recorded operations, one of them undone. -/
theorem C6_apply_truncates_redo_witness :
    (({ history := [{ type := .add }, { type := .delete }], historyPos := 1 } : Scene).historyPos
        ≤ ({ history := [{ type := .add }, { type := .delete }], historyPos := 1 } : Scene).history.length)
      ∧ (({ history := [{ type := .add }, { type := .delete }], historyPos := 1 } : Scene).doSceneOp
            { type := .modify }).history
          = [{ type := .add }, { type := .modify }]
      ∧ (({ history := [{ type := .add }, { type := .delete }], historyPos := 1 } : Scene).doSceneOp
            { type := .modify }).historyPos = 2
      ∧ (({ history := [{ type := .add }, { type := .delete }], historyPos := 1 } : Scene).doSceneOp
            { type := .modify }).HasRedo = false := by
  have h := C6_apply_truncates_redo
    { history := [{ type := .add }, { type := .delete }], historyPos := 1 } { type := .modify }
    (by decide)
  exact ⟨by decide, by rw [h.1]; decide, h.2.1, h.2.2⟩

/-- trivialGeom is a concrete geometry oracle used to instantiate the
parameterized theorems on concrete scenes: buildings occupy a unit square
at their position, nothing else contains any point, and rectangle union
keeps the first argument. -/
def trivialGeom : Geom :=
  { checkStartPt := fun _ _ => false
    checkEndPt := fun _ _ => false
    checkBodyPt := fun _ _ => false
    buildingBounds := fun b => { x := b.Pos.x, y := b.Pos.y, w := 1, h := 1 }
    rectContains := fun _ _ => false
    rectUnion := fun a _ => a
    pathSelBounds := fun _ _ _ => { x := 0, y := 0, w := 0, h := 0 } }

/-! ### Claim C10 — mutations clear the hovered reference -/

/-- C10: every mutation through `doSceneOp` (hence each of the six wrapper
mutators) and every successful `Undo` / `Redo` leaves the scene with the
zero-valued hovered object reference. -/
theorem C10_hovered_cleared (g : Geom) (s : Scene) (op : sceneOp) (p : Path) (b : Building)
    (tb : TextBox) (col : ObjectCollection) (sel : ObjectSelection) (ncol : ObjectCollection) :
    (s.doSceneOp op).Hovered = Object.empty
      ∧ (s.AddPath p).Hovered = Object.empty
      ∧ (s.AddBuilding b).Hovered = Object.empty
      ∧ (s.AddTextBox tb).Hovered = Object.empty
      ∧ (s.AddObjects col).Hovered = Object.empty
      ∧ (s.DeleteObjects sel).Hovered = Object.empty
      ∧ (s.ModifyObjects sel ncol).Hovered = Object.empty
      ∧ (s.historyPos > 0 → ((Scene.Undo g s).2.1).Hovered = Object.empty)
      ∧ (s.historyPos < s.history.length → ((Scene.Redo g s).2.1).Hovered = Object.empty) := by
  refine ⟨rfl, rfl, rfl, rfl, rfl, rfl, rfl, ?_, ?_⟩
  · intro hu
    unfold Scene.Undo
    rw [if_pos hu]
    exact sceneOp_undo_hovered g _ _
  · intro hr
    unfold Scene.Redo
    rw [if_pos hr]
    exact sceneOp_redo_hovered g _ _

/-- hoveredScene is a one-operation scene with a stale hovered reference
and the cursor after the operation (used by the C10 witness). -/
def hoveredScene : Scene :=
  { history := [{ type := .add }], historyPos := 1,
    Hovered := { type := .building, Idx := 3 } }

/-- hoveredSceneAtStart is `hoveredScene` with the cursor before the
operation (used by the C10 witness for redo). -/
def hoveredSceneAtStart : Scene := { hoveredScene with historyPos := 0 }

/-- C10 witness: a one-operation scene with a stale hovered reference, at
cursor 1 for undo and cursor 0 for redo. -/
theorem C10_hovered_cleared_witness :
    (hoveredScene.doSceneOp { type := .add }).Hovered = Object.empty
      ∧ (0 < hoveredScene.historyPos)
      ∧ ((Scene.Undo trivialGeom hoveredScene).2.1).Hovered = Object.empty
      ∧ (hoveredSceneAtStart.historyPos < hoveredSceneAtStart.history.length)
      ∧ ((Scene.Redo trivialGeom hoveredSceneAtStart).2.1).Hovered = Object.empty := by
  refine ⟨?_, by decide, ?_, by decide, ?_⟩
  · exact (C10_hovered_cleared trivialGeom hoveredScene
      { type := .add } default default default {} {} {}).1
  · exact (C10_hovered_cleared trivialGeom hoveredScene
      { type := .add } default default default {} {} {}).2.2.2.2.2.2.2.1 (by decide)
  · exact (C10_hovered_cleared trivialGeom hoveredSceneAtStart
      { type := .add } default default default {} {} {}).2.2.2.2.2.2.2.2 (by decide)

/-! ### Claim C3 — redo of an Add and the selection it returns -/

/-- addOnePathOp is an Add operation carrying exactly one path (the C3
failing input). -/
def addOnePathOp : sceneOp :=
  { type := .add, New := { Paths := [default] } }

/-- C3: evaluating `sceneOp.redo` at the failing input (redoing an Add of
one path onto a scene with no paths).  The source computes the base path
index `n := len(s.Paths)` only after appending, so the returned selection
selects path index 1 while the resulting paths sequence has length 1 —
the selection does not cover the newly appended range `[0, 1)` and its
path index is out of range, contradicting the claim (the building and
text-box ranges, built before this point, use `len - len(New)` and are
correct). -/
theorem C3_redo_add_selects_out_of_range :
    ((sceneOp.redo trivialGeom addOnePathOp {}).2).PathIdxs
        = [{ Idx := 1, Start := true, End := true }]
      ∧ ((sceneOp.redo trivialGeom addOnePathOp {}).1).Col.Paths.length = 1
      ∧ ¬((1 : Nat) < 1) := by
  refine ⟨?_, ?_, by decide⟩ <;> rfl

/-! ### Claim C8 — the selection returned by undo -/

/-- C8 (amended): `sceneOp.undo` returns the cleared selection for an Add,
the operation's stored selection with its stored bounds unchanged (not
recomputed) for a Delete, and the stored selection with bounds recomputed
against the post-undo collection for a Modify. -/
theorem C8_undo_selection (g : Geom) (op : sceneOp) (s : Scene) :
    (op.type = .add → (op.undo g s).2 = ({} : ObjectSelection))
      ∧ (op.type = .delete → (op.undo g s).2 = op.Sel)
      ∧ (op.type = .modify →
          (op.undo g s).2 = recomputeBounds g op.Sel ((op.undo g s).1).Col) := by
  refine ⟨?_, ?_, ?_⟩ <;> intro hty <;> simp [sceneOp.undo, hty]

/-- cDeleteOp is a Delete operation of building 0 whose stored selection
carries a stale bounds rectangle (C8 concrete scenario). -/
def cDeleteOp : sceneOp :=
  { type := .delete
    Sel := { BuildingIdxs := [0], Bounds := { x := 9, y := 9, w := 9, h := 9 } }
    Old := { Buildings := [{ DefIdx := 0, Pos := { x := 5, y := 6 }, Rot := 0 }] } }

/-- C8 counterexample: undoing `cDeleteOp` on the empty post-delete scene
returns the stored selection with its stale bounds rectangle, which is not
the selection with bounds recomputed against the post-undo collection —
so the claim's "bounds recomputed" part is false for Delete. -/
theorem C8_undo_selection_counterexample :
    (sceneOp.undo trivialGeom cDeleteOp {}).2
      ≠ recomputeBounds trivialGeom cDeleteOp.Sel ((sceneOp.undo trivialGeom cDeleteOp {}).1).Col
      := by decide

/-- C8 witness: the three amended cases evaluated on concrete operations. -/
theorem C8_undo_selection_witness :
    (sceneOp.undo trivialGeom { type := .add } {}).2 = ({} : ObjectSelection)
      ∧ (sceneOp.undo trivialGeom cDeleteOp {}).2 = cDeleteOp.Sel
      ∧ (sceneOp.undo trivialGeom { type := .modify } {}).2
          = recomputeBounds trivialGeom ({ type := .modify } : sceneOp).Sel
              ((sceneOp.undo trivialGeom { type := .modify } {}).1).Col :=
  ⟨(C8_undo_selection trivialGeom { type := .add } {}).1 rfl,
    (C8_undo_selection trivialGeom cDeleteOp {}).2.1 rfl,
    (C8_undo_selection trivialGeom { type := .modify } {}).2.2 rfl⟩

/-! ### Claim C1 — apply followed immediately by undo restores the collection -/

/-- opWellFormed states that an operation matches the scene it is applied
to, exactly as the four mutator wrappers construct it: delete and modify
operations carry `Old` snapshots taken with `CopyIdxs` from the current
collection at their selection's indices (the selection index lists being
strictly ascending and in range, as selections are). -/
def opWellFormed (s : Scene) (op : sceneOp) : Prop :=
  match op.type with
  | .add => True
  | .delete =>
      op.Sel.FullPathIdxs.Pairwise (· < ·)
        ∧ (∀ j ∈ op.Sel.FullPathIdxs, j < s.Col.Paths.length)
        ∧ op.Sel.BuildingIdxs.Pairwise (· < ·)
        ∧ (∀ j ∈ op.Sel.BuildingIdxs, j < s.Col.Buildings.length)
        ∧ op.Sel.TextBoxIdxs.Pairwise (· < ·)
        ∧ (∀ j ∈ op.Sel.TextBoxIdxs, j < s.Col.TextBoxes.length)
        ∧ op.Old.Paths = CopyIdxs [] s.Col.Paths op.Sel.FullPathIdxs
        ∧ op.Old.Buildings = CopyIdxs [] s.Col.Buildings op.Sel.BuildingIdxs
        ∧ op.Old.TextBoxes = CopyIdxs [] s.Col.TextBoxes op.Sel.TextBoxIdxs
  | .modify =>
      (∀ j ∈ op.Sel.AnyPathIdxs, j < s.Col.Paths.length)
        ∧ (∀ j ∈ op.Sel.BuildingIdxs, j < s.Col.Buildings.length)
        ∧ (∀ j ∈ op.Sel.TextBoxIdxs, j < s.Col.TextBoxes.length)
        ∧ op.Old.Paths = CopyIdxs [] s.Col.Paths op.Sel.AnyPathIdxs
        ∧ op.Old.Buildings = CopyIdxs [] s.Col.Buildings op.Sel.BuildingIdxs
        ∧ op.Old.TextBoxes = CopyIdxs [] s.Col.TextBoxes op.Sel.TextBoxIdxs

instance (s : Scene) (op : sceneOp) : Decidable (opWellFormed s op) := by
  unfold opWellFormed
  cases op.type <;> infer_instance

theorem undo_do_col (g : Geom) (s : Scene) (op : sceneOp) (hwf : opWellFormed s op)
    (t : Scene) (ht : t.Col = (op.do s).Col) : ((op.undo g t).1).Col = s.Col := by
  cases hty : op.type with
  | add =>
    simp only [sceneOp.do, hty] at ht
    simp only [sceneOp.undo, hty]
    rw [ht]
    show ObjectCollection.mk _ _ _ = s.Col
    simp only [List.length_append]
    rw [List.take_left' (by omega), List.take_left' (by omega), List.take_left' (by omega)]
  | delete =>
    simp only [opWellFormed, hty] at hwf
    obtain ⟨hps, hpb, hbs, hbb, hts, htb, hop, hob, hot⟩ := hwf
    simp only [sceneOp.do, hty] at ht
    simp only [sceneOp.undo, hty]
    rw [ht]
    show ObjectCollection.mk _ _ _ = s.Col
    rw [hop, hob, hot]
    rw [swapInsertMany_swapDeleteMany _ _ hps hpb, swapInsertMany_swapDeleteMany _ _ hbs hbb,
      swapInsertMany_swapDeleteMany _ _ hts htb]
  | modify =>
    simp only [opWellFormed, hty] at hwf
    obtain ⟨hpb, hbb, htb, hop, hob, hot⟩ := hwf
    simp only [sceneOp.do, hty] at ht
    simp only [sceneOp.undo, hty]
    rw [ht]
    show ObjectCollection.mk _ _ _ = s.Col
    rw [hop, hob, hot]
    rw [setIdxs_setIdxs_restore _ _ _ hpb, setIdxs_setIdxs_restore _ _ _ hbb,
      setIdxs_setIdxs_restore _ _ _ htb]

/-- C1: for every scene (with the history-cursor invariant) and every
well-formed operation, applying the operation through `doSceneOp` and
performing `Undo` immediately afterwards succeeds and restores the object
collection — all three sequences, element for element — to its pre-apply
contents. -/
theorem C1_apply_undo_restores (g : Geom) (s : Scene) (op : sceneOp)
    (hpos : s.historyPos ≤ s.history.length) (hwf : opWellFormed s op) :
    (Scene.Undo g (s.doSceneOp op)).1 = true
      ∧ ((Scene.Undo g (s.doSceneOp op)).2.1).Col = s.Col := by
  obtain ⟨hh, hp, _, hcol⟩ := doSceneOp_proj s op
  have hpos' : (s.doSceneOp op).historyPos > 0 := by rw [hp]; omega
  have hgetop : (s.doSceneOp op).history.getD ((s.doSceneOp op).historyPos - 1) default
      = op := by
    rw [hh, hp]
    simp only [Nat.add_sub_cancel]
    rw [List.getD_eq_getElem?_getD,
      List.getElem?_append_right (by rw [List.length_take_of_le hpos]),
      List.length_take_of_le hpos]
    simp
  unfold Scene.Undo
  rw [if_pos hpos']
  simp only [hgetop]
  exact ⟨trivial, undo_do_col g s op hwf _ hcol⟩

/-- preDeleteScene is a small scene with two paths, one building and one
text box (C1 witness input). -/
def preDeleteScene : Scene :=
  { Col :=
    { Paths := [default, { DefIdx := 1, Start := { x := 1, y := 1 }, End := { x := 2, y := 2 } }]
      Buildings := [{ DefIdx := 0, Pos := { x := 5, y := 6 }, Rot := 1 }]
      TextBoxes := [{ Bounds := { x := 0, y := 0, w := 3, h := 2 }, Content := ['a'] }] } }

/-- wfDeleteOp deletes path 1 and building 0 of `preDeleteScene`, with the
`Old` snapshots taken exactly as `DeleteObjects` takes them (C1 witness
input). -/
def wfDeleteOp : sceneOp :=
  { type := .delete
    Sel := { PathIdxs := [{ Idx := 1, Start := true, End := true }], BuildingIdxs := [0] }
    Old :=
      { Paths := CopyIdxs [] preDeleteScene.Col.Paths [1]
        Buildings := CopyIdxs [] preDeleteScene.Col.Buildings [0] } }

/-- C1 witness: applying `wfDeleteOp` to `preDeleteScene` and undoing it
restores the collection. -/
theorem C1_apply_undo_restores_witness :
    preDeleteScene.historyPos ≤ preDeleteScene.history.length
      ∧ opWellFormed preDeleteScene wfDeleteOp
      ∧ (Scene.Undo trivialGeom (preDeleteScene.doSceneOp wfDeleteOp)).1 = true
      ∧ ((Scene.Undo trivialGeom (preDeleteScene.doSceneOp wfDeleteOp)).2.1).Col
          = preDeleteScene.Col :=
  ⟨by decide, by decide,
    (C1_apply_undo_restores trivialGeom preDeleteScene wfDeleteOp (by decide) (by decide)).1,
    (C1_apply_undo_restores trivialGeom preDeleteScene wfDeleteOp (by decide) (by decide)).2⟩

/-! ### Number formatting lemmas -/

theorem digitChar_isDigit (d : Nat) (hd : d < 10) : (Nat.digitChar d).isDigit = true := by
  interval_cases d <;> decide

theorem digitVal_digitChar (d : Nat) (hd : d < 10) : digitVal (Nat.digitChar d) = d := by
  interval_cases d <;> decide

theorem valOfDigits_append_one (xs : Chars) (c : Char) :
    valOfDigits (xs ++ [c]) = 10 * valOfDigits xs + digitVal c := by
  simp [valOfDigits, List.foldl_append]

theorem natDigitsAux_zero (fuel : Nat) : natDigitsAux fuel 0 = [] := by
  cases fuel <;> rfl

theorem natDigitsAux_spec (fuel : Nat) :
    ∀ n : Nat, 0 < n → n ≤ fuel →
      natDigitsAux fuel n ≠ []
        ∧ (∀ c ∈ natDigitsAux fuel n, c.isDigit = true)
        ∧ valOfDigits (natDigitsAux fuel n) = n := by
  induction fuel with
  | zero => intro n h1 h2; omega
  | succ f ih =>
    intro n h1 h2
    obtain ⟨m, rfl⟩ : ∃ m, n = m + 1 := ⟨n - 1, by omega⟩
    have heq : natDigitsAux (f + 1) (m + 1)
        = natDigitsAux f ((m + 1) / 10) ++ [Nat.digitChar ((m + 1) % 10)] := rfl
    by_cases h10 : m + 1 < 10
    · have hdiv : (m + 1) / 10 = 0 := Nat.div_eq_of_lt h10
      have hmod : (m + 1) % 10 = m + 1 := Nat.mod_eq_of_lt h10
      rw [heq, hdiv, natDigitsAux_zero, hmod]
      refine ⟨by simp, ?_, ?_⟩
      · intro c hc
        simp only [List.nil_append, List.mem_singleton] at hc
        subst hc
        exact digitChar_isDigit (m + 1) h10
      · simp only [List.nil_append]
        rw [show ([Nat.digitChar (m + 1)] : Chars) = [] ++ [Nat.digitChar (m + 1)] from rfl,
          valOfDigits_append_one, digitVal_digitChar (m + 1) h10]
        have hz : valOfDigits ([] : Chars) = 0 := rfl
        rw [hz]
        omega
    · have hdp : 0 < (m + 1) / 10 := Nat.div_pos (by omega) (by omega)
      have hdle : (m + 1) / 10 ≤ f := by
        have := Nat.div_lt_self (show 0 < m + 1 by omega) (show 1 < 10 by omega)
        omega
      obtain ⟨hne, hdig, hval⟩ := ih ((m + 1) / 10) hdp hdle
      rw [heq]
      refine ⟨by simp, ?_, ?_⟩
      · intro c hc
        rcases List.mem_append.mp hc with h | h
        · exact hdig c h
        · simp only [List.mem_singleton] at h
          subst h
          exact digitChar_isDigit _ (Nat.mod_lt _ (by omega))
      · rw [valOfDigits_append_one, hval, digitVal_digitChar _ (Nat.mod_lt _ (by omega))]
        omega

theorem formatNat_spec (n : Nat) :
    formatNat n ≠ [] ∧ (∀ c ∈ formatNat n, c.isDigit = true)
      ∧ valOfDigits (formatNat n) = n := by
  by_cases h : n = 0
  · subst h
    exact ⟨by decide, by decide, by decide⟩
  · rw [formatNat, if_neg h]
    exact natDigitsAux_spec (n + 1) n (by omega) (by omega)

theorem parseNatStrict_formatNat (n : Nat) : parseNatStrict (formatNat n) = some n := by
  obtain ⟨hne, hdig, hval⟩ := formatNat_spec n
  rw [parseNatStrict, if_pos ⟨hne, List.all_eq_true.mpr (fun c hc => hdig c hc)⟩, hval]

theorem formatNat_head_isDigit (n : Nat) : ((formatNat n).headD 'x').isDigit = true := by
  obtain ⟨hne, hdig, _⟩ := formatNat_spec n
  cases h : formatNat n with
  | nil => exact absurd h hne
  | cons c rest =>
    simp only [List.headD_cons]
    exact hdig c (by rw [h]; simp)

theorem parseIntStrict_formatInt (n : Int) : parseIntStrict (formatInt n) = some n := by
  by_cases hn : n < 0
  · rw [formatInt, if_pos hn, parseIntStrict]
    simp only [List.headD_cons, List.tail_cons, if_pos rfl]
    rw [parseNatStrict_formatNat]
    show some (-(n.natAbs : Int)) = some n
    congr 1
    omega
  · rw [formatInt, if_neg hn, parseIntStrict, if_neg ?hmin]
    case hmin =>
      have := formatNat_head_isDigit n.natAbs
      intro hcontra
      rw [hcontra] at this
      exact absurd this (by decide)
    rw [parseNatStrict_formatNat]
    show some ((n.natAbs : Int)) = some n
    congr 1
    omega

theorem parseNatLead_formatNat (n : Nat) : parseNatLead (formatNat n) = some n := by
  obtain ⟨hne, hdig, hval⟩ := formatNat_spec n
  have htw : (formatNat n).takeWhile Char.isDigit = formatNat n :=
    List.takeWhile_eq_self_iff.mpr (fun c hc => hdig c hc)
  rw [parseNatLead]
  simp only [htw]
  rw [if_neg (by simp [List.isEmpty_iff, hne]), hval]

theorem parseIntLead_formatInt (n : Int) : parseIntLead (formatInt n) = some n := by
  by_cases hn : n < 0
  · rw [formatInt, if_pos hn, parseIntLead]
    simp only [List.headD_cons, List.tail_cons, if_pos rfl]
    rw [parseNatLead_formatNat]
    show some (-(n.natAbs : Int)) = some n
    congr 1
    omega
  · rw [formatInt, if_neg hn, parseIntLead, if_neg ?hmin]
    case hmin =>
      have := formatNat_head_isDigit n.natAbs
      intro hcontra
      rw [hcontra] at this
      exact absurd this (by decide)
    rw [parseNatLead_formatNat]
    show some ((n.natAbs : Int)) = some n
    congr 1
    omega

theorem formatInt_no_space_newline (n : Int) (c : Char) (hc : c ∈ formatInt n) :
    c ≠ ' ' ∧ c ≠ '\n' := by
  have hdigOr : c.isDigit = true ∨ c = '-' := by
    rw [formatInt] at hc
    split at hc
    · rcases List.mem_cons.mp hc with h | h
      · exact Or.inr h
      · exact Or.inl ((formatNat_spec n.natAbs).2.1 c h)
    · exact Or.inl ((formatNat_spec n.natAbs).2.1 c hc)
  rcases hdigOr with h | h
  · constructor <;> rintro rfl <;> exact absurd h (by decide)
  · subst h
    exact ⟨by decide, by decide⟩

/-! ### Quoting lemmas -/

theorem newline_not_mem_escChar (c : Char) : '\n' ∉ escChar c := by
  rw [escChar]
  split
  · decide
  · split
    · decide
    · split
      · decide
      · rename_i h1 h2 h3
        simp only [List.mem_singleton]
        intro hc
        exact h3 hc.symm

theorem newline_not_mem_goQuote (s : Chars) : '\n' ∉ goQuote s := by
  rw [goQuote]
  intro hmem
  rcases List.mem_cons.mp hmem with h | h
  · exact absurd h (by decide)
  · rcases List.mem_append.mp h with h | h
    · obtain ⟨c, _, hc⟩ := List.mem_flatMap.mp h
      exact newline_not_mem_escChar c hc
    · simp only [List.mem_singleton] at h
      exact absurd h (by decide)

theorem unquoteAux_other (acc : Chars) (c : Char) (rest : Chars) (h1 : ¬c = '"')
    (h2 : ¬c = '\\') : unquoteAux acc (c :: rest) = unquoteAux (c :: acc) rest := by
  rw [unquoteAux.eq_def]
  simp only [if_neg h1, if_neg h2]

theorem unquoteAux_escape (s : Chars) : ∀ acc : Chars,
    unquoteAux acc (s.flatMap escChar ++ ['"']) = some (acc.reverse ++ s) := by
  induction s with
  | nil =>
    intro acc
    show unquoteAux acc ['"'] = some (acc.reverse ++ [])
    have hred : unquoteAux acc ['"'] = some acc.reverse := rfl
    rw [hred, List.append_nil]
  | cons c cs ih =>
    intro acc
    have hstep : (c :: cs).flatMap escChar ++ ['"'] = escChar c ++ (cs.flatMap escChar ++ ['"']) := by
      simp [List.flatMap_cons, List.append_assoc]
    rw [hstep, escChar]
    by_cases h1 : c = '\\'
    · rw [if_pos h1]
      have hred : unquoteAux acc (['\\', '\\'] ++ (cs.flatMap escChar ++ ['"']))
          = unquoteAux ('\\' :: acc) (cs.flatMap escChar ++ ['"']) := rfl
      rw [hred, ih ('\\' :: acc)]
      subst h1
      simp
    · rw [if_neg h1]
      by_cases h2 : c = '"'
      · rw [if_pos h2]
        have hred : unquoteAux acc (['\\', '"'] ++ (cs.flatMap escChar ++ ['"']))
            = unquoteAux ('"' :: acc) (cs.flatMap escChar ++ ['"']) := rfl
        rw [hred, ih ('"' :: acc)]
        subst h2
        simp
      · rw [if_neg h2]
        by_cases h3 : c = '\n'
        · rw [if_pos h3]
          have hred : unquoteAux acc (['\\', 'n'] ++ (cs.flatMap escChar ++ ['"']))
              = unquoteAux ('\n' :: acc) (cs.flatMap escChar ++ ['"']) := rfl
          rw [hred, ih ('\n' :: acc)]
          subst h3
          simp
        · rw [if_neg h3]
          show unquoteAux acc ([c] ++ (cs.flatMap escChar ++ ['"'])) = _
          rw [List.singleton_append, unquoteAux_other acc c _ h2 h1, ih (c :: acc)]
          simp

theorem goUnquote_goQuote (s : Chars) : goUnquote (goQuote s) = some s := by
  have hred : goUnquote (goQuote s) = unquoteAux [] (s.flatMap escChar ++ ['"']) := rfl
  rw [hred, unquoteAux_escape s []]
  simp

/-! ### Splitting lemmas -/

theorem splitOnChar_ne_nil (sep : Char) (l : Chars) : splitOnChar sep l ≠ [] := by
  cases l with
  | nil => simp [splitOnChar]
  | cons c rest =>
    rw [splitOnChar]
    cases h : splitOnChar sep rest with
    | nil => simp
    | cons cur done =>
      by_cases hc : c = sep <;> simp [hc]

theorem splitOnChar_not_mem (sep : Char) (l : Chars) (h : sep ∉ l) :
    splitOnChar sep l = [l] := by
  induction l with
  | nil => rfl
  | cons c rest ih =>
    have hc : c ≠ sep := fun hc => h (by simp [hc])
    have hrest : sep ∉ rest := fun hr => h (by simp [hr])
    rw [splitOnChar, ih hrest]
    simp [hc]

theorem splitOnChar_append_sep (sep : Char) (l1 l2 : Chars) (h : sep ∉ l1) :
    splitOnChar sep (l1 ++ sep :: l2) = l1 :: splitOnChar sep l2 := by
  induction l1 with
  | nil =>
    rw [List.nil_append, splitOnChar]
    cases hs : splitOnChar sep l2 with
    | nil => exact absurd hs (splitOnChar_ne_nil sep l2)
    | cons cur done => simp
  | cons c cs ih =>
    have hc : c ≠ sep := fun hc => h (by simp [hc])
    have hcs : sep ∉ cs := fun hr => h (by simp [hr])
    rw [List.cons_append, splitOnChar, ih hcs]
    simp [hc]

theorem splitOnChar_flatMap_terminated (sep : Char) (L : List Chars)
    (h : ∀ l ∈ L, sep ∉ l) :
    splitOnChar sep (L.flatMap (fun l => l ++ [sep])) = L ++ [[]] := by
  induction L with
  | nil => rfl
  | cons l Ls ih =>
    have hstep : (l :: Ls).flatMap (fun l => l ++ [sep])
        = l ++ sep :: Ls.flatMap (fun l => l ++ [sep]) := by
      simp [List.flatMap_cons, List.append_assoc]
    rw [hstep, splitOnChar_append_sep sep l _ (h l (by simp)),
      ih (fun x hx => h x (by simp [hx]))]
    rfl

/-- joinLinesNL joins lines with single newline separators (no trailing
newline), for stating decode results on arbitrary texts. -/
def joinLinesNL : List Chars → Chars
  | [] => []
  | [l] => l
  | l :: ls => l ++ '\n' :: joinLinesNL ls

theorem splitOnChar_joinLinesNL (L : List Chars) (hne : L ≠ [])
    (h : ∀ l ∈ L, '\n' ∉ l) : splitOnChar '\n' (joinLinesNL L) = L := by
  induction L with
  | nil => exact absurd rfl hne
  | cons l Ls ih =>
    cases Ls with
    | nil =>
      show splitOnChar '\n' l = [l]
      exact splitOnChar_not_mem '\n' l (h l (by simp))
    | cons l2 Ls2 =>
      show splitOnChar '\n' (l ++ '\n' :: joinLinesNL (l2 :: Ls2)) = _
      rw [splitOnChar_append_sep '\n' l _ (h l (by simp)),
        ih (by simp) (fun x hx => h x (by simp [hx]))]

theorem cutChar_append_sep (sep : Char) (a b : Chars) (h : sep ∉ a) :
    cutChar sep (a ++ sep :: b) = (a, b) := by
  induction a with
  | nil => simp [cutChar]
  | cons c cs ih =>
    have hc : c ≠ sep := fun hc => h (by simp [hc])
    have hcs : sep ∉ cs := fun hr => h (by simp [hr])
    rw [List.cons_append, cutChar, if_neg hc, ih hcs]

theorem splitNChar_one (sep : Char) (l : Chars) : splitNChar sep 1 l = [l] := rfl

theorem splitNChar_step (sep : Char) (n : Nat) (a b : Chars) (h : sep ∉ a) :
    splitNChar sep (n + 2) (a ++ sep :: b) = a :: splitNChar sep (n + 1) b := by
  have hcont : (a ++ sep :: b).contains sep = true := by
    simp [List.elem_eq_mem]
  rw [splitNChar, if_pos hcont, cutChar_append_sep sep a b h]

/-! ### Registry lookup lemmas -/

theorem listIndex_not_mem (l : List Chars) (x : Chars) (h : x ∉ l) : listIndex l x = none := by
  induction l with
  | nil => rfl
  | cons y ys ih =>
    rw [listIndex, if_neg (fun hy => h (by simp [hy]))]
    rw [ih (fun hx => h (by simp [hx]))]
    rfl

theorem listIndex_getElem (l : List Chars) (hnd : l.Nodup) (i : Nat) (hi : i < l.length) :
    listIndex l l[i] = some i := by
  induction l generalizing i with
  | nil => simp at hi
  | cons y ys ih =>
    cases i with
    | zero =>
      rw [listIndex]
      simp
    | succ j =>
      have hj : j < ys.length := by simpa using hi
      have hyne : y ≠ ys[j] := by
        have hnotin : y ∉ ys := (List.nodup_cons.mp hnd).1
        intro he
        exact hnotin (he ▸ List.getElem_mem hj)
      have hcons : (y :: ys)[j + 1] = ys[j] := rfl
      rw [hcons, listIndex, if_neg hyne, ih (List.nodup_cons.mp hnd).2 j hj]
      rfl

theorem getD_of_lt {α : Type} [Inhabited α] (l : List α) (i : Nat) (d : α)
    (hi : i < l.length) : l.getD i d = l[i] := by
  rw [List.getD_eq_getElem?_getD, List.getElem?_eq_getElem hi]
  rfl

/-! ### Per-line decode lemmas -/

theorem space_not_mem_formatInt (n : Int) : ' ' ∉ formatInt n :=
  fun h => (formatInt_no_space_newline n ' ' h).1 rfl

theorem newline_not_mem_formatInt (n : Int) : '\n' ∉ formatInt n :=
  fun h => (formatInt_no_space_newline n '\n' h).2 rfl

/-- goodClass records that a registry class token does not clash with the
text-box class and contains no separator characters. -/
def goodClass (c : Chars) : Prop := c ≠ textboxClass ∧ ' ' ∉ c ∧ '\n' ∉ c

/-- wfDefs is well-formedness of the two registries: no duplicate class
names, good class tokens, and no building class shadowed by a path class
(decode tries the path registry first). -/
def wfDefs (pd bd : List Chars) : Prop :=
  pd.Nodup ∧ bd.Nodup ∧ (∀ c ∈ pd, goodClass c) ∧ (∀ c ∈ bd, goodClass c ∧ c ∉ pd)

instance (pd bd : List Chars) : Decidable (wfDefs pd bd) := by
  unfold wfDefs goodClass
  infer_instance

theorem decodeLine_building (pd bd : List Chars) (ver : Int) (hwf : wfDefs pd bd)
    (b : Building) (hb : b.DefIdx < bd.length) :
    decodeLine pd bd ver (encodeBuildingLine bd b) = .ok (.building b) := by
  obtain ⟨hndp, hndb, hpgood, hbgood⟩ := hwf
  have hcls : bd.getD b.DefIdx [] = bd[b.DefIdx] := getD_of_lt bd b.DefIdx [] hb
  obtain ⟨hgc, hnotpd⟩ := hbgood bd[b.DefIdx] (List.getElem_mem hb)
  have hcut : cutChar ' ' (encodeBuildingLine bd b)
      = (bd[b.DefIdx],
         formatInt b.Pos.x ++ ' ' :: (formatInt b.Pos.y ++ ' ' :: formatInt b.Rot)) := by
    rw [encodeBuildingLine, hcls]
    exact cutChar_append_sep ' ' _ _ hgc.2.1
  have hsplit : splitOnChar ' '
      (formatInt b.Pos.x ++ ' ' :: (formatInt b.Pos.y ++ ' ' :: formatInt b.Rot))
      = [formatInt b.Pos.x, formatInt b.Pos.y, formatInt b.Rot] := by
    rw [splitOnChar_append_sep ' ' _ _ (space_not_mem_formatInt _),
      splitOnChar_append_sep ' ' _ _ (space_not_mem_formatInt _),
      splitOnChar_not_mem ' ' _ (space_not_mem_formatInt _)]
  rw [decodeLine]
  simp only [hcut, if_neg hgc.1, listIndex_not_mem pd _ hnotpd,
    listIndex_getElem bd hndb b.DefIdx hb, hsplit, parseIntStrict_formatInt]

theorem decodeLine_path (pd bd : List Chars) (ver : Int) (hwf : wfDefs pd bd)
    (p : Path) (hp : p.DefIdx < pd.length) :
    decodeLine pd bd ver (encodePathLine pd p) = .ok (.path p) := by
  obtain ⟨hndp, hndb, hpgood, hbgood⟩ := hwf
  have hcls : pd.getD p.DefIdx [] = pd[p.DefIdx] := getD_of_lt pd p.DefIdx [] hp
  have hgc := hpgood pd[p.DefIdx] (List.getElem_mem hp)
  have hcut : cutChar ' ' (encodePathLine pd p)
      = (pd[p.DefIdx],
         formatInt p.Start.x ++ ' ' :: (formatInt p.Start.y
           ++ ' ' :: (formatInt p.End.x ++ ' ' :: formatInt p.End.y))) := by
    rw [encodePathLine, hcls]
    exact cutChar_append_sep ' ' _ _ hgc.2.1
  have hsplit : splitOnChar ' '
      (formatInt p.Start.x ++ ' ' :: (formatInt p.Start.y
        ++ ' ' :: (formatInt p.End.x ++ ' ' :: formatInt p.End.y)))
      = [formatInt p.Start.x, formatInt p.Start.y, formatInt p.End.x, formatInt p.End.y] := by
    rw [splitOnChar_append_sep ' ' _ _ (space_not_mem_formatInt _),
      splitOnChar_append_sep ' ' _ _ (space_not_mem_formatInt _),
      splitOnChar_append_sep ' ' _ _ (space_not_mem_formatInt _),
      splitOnChar_not_mem ' ' _ (space_not_mem_formatInt _)]
  rw [decodeLine]
  simp only [hcut, if_neg hgc.1, listIndex_getElem pd hndp p.DefIdx hp, hsplit,
    parseIntStrict_formatInt]

theorem decodeLine_textbox (pd bd : List Chars) (ver : Int) (tb : TextBox) :
    decodeLine pd bd ver (encodeTextBoxLine tb) = .ok (.textbox tb) := by
  have hcut : cutChar ' ' (encodeTextBoxLine tb)
      = (textboxClass,
         formatInt tb.Bounds.x ++ ' ' :: (formatInt tb.Bounds.y
           ++ ' ' :: (formatInt tb.Bounds.w ++ ' ' :: (formatInt tb.Bounds.h
             ++ ' ' :: goQuote tb.Content)))) := by
    rw [encodeTextBoxLine]
    exact cutChar_append_sep ' '
      textboxClass
      (formatInt tb.Bounds.x ++ ' ' :: (formatInt tb.Bounds.y
        ++ ' ' :: (formatInt tb.Bounds.w ++ ' ' :: (formatInt tb.Bounds.h
          ++ ' ' :: goQuote tb.Content))))
      (by decide)
  have hsplit : splitNChar ' ' 5
      (formatInt tb.Bounds.x ++ ' ' :: (formatInt tb.Bounds.y
        ++ ' ' :: (formatInt tb.Bounds.w ++ ' ' :: (formatInt tb.Bounds.h
          ++ ' ' :: goQuote tb.Content))))
      = [formatInt tb.Bounds.x, formatInt tb.Bounds.y, formatInt tb.Bounds.w,
         formatInt tb.Bounds.h, goQuote tb.Content] := by
    rw [show (5 : Nat) = 3 + 2 from rfl,
      splitNChar_step ' ' 3 _ _ (space_not_mem_formatInt _),
      show (3 + 1 : Nat) = 2 + 2 from rfl,
      splitNChar_step ' ' 2 _ _ (space_not_mem_formatInt _),
      show (2 + 1 : Nat) = 1 + 2 from rfl,
      splitNChar_step ' ' 1 _ _ (space_not_mem_formatInt _),
      show (1 + 1 : Nat) = 0 + 2 from rfl,
      splitNChar_step ' ' 0 _ _ (space_not_mem_formatInt _),
      splitNChar_one]
  rw [decodeLine]
  simp only [hcut, hsplit, parseIntStrict_formatInt, goUnquote_goQuote, if_pos]

/-! ### Decode-of-encode assembly -/

theorem append_cons_isEmpty_false (a : Chars) (c : Char) (b : Chars) :
    (a ++ c :: b).isEmpty = false := by
  cases a <;> rfl

theorem dropPrefix?_append (p r : Chars) : (p ++ r).dropPrefix? p = some r := by
  induction p with
  | nil => simp [List.dropPrefix?]
  | cons a as ih => simp [List.dropPrefix?, ih]

theorem splitOnChar_encBlock {β : Type} (sep : Char) (f : β → Chars) (L : List β)
    (B : Chars) (h : ∀ x ∈ L, sep ∉ f x) :
    splitOnChar sep (L.flatMap (fun x => f x ++ [sep]) ++ B)
      = L.map f ++ splitOnChar sep B := by
  induction L with
  | nil => simp
  | cons x L' ih =>
    have hstep : (x :: L').flatMap (fun x => f x ++ [sep]) ++ B
        = f x ++ sep :: (L'.flatMap (fun x => f x ++ [sep]) ++ B) := by
      simp [List.flatMap_cons, List.append_assoc]
    rw [hstep, splitOnChar_append_sep sep _ _ (h x (by simp)),
      ih (fun y hy => h y (by simp [hy]))]
    rfl

theorem decodeLines_ok_block (pd bd : List Chars) (ver : Int)
    (L : List (Chars × SceneObj))
    (hL : ∀ pr ∈ L, decodeLine pd bd ver pr.1 = .ok pr.2 ∧ pr.1.isEmpty = false) :
    ∀ (rest : List Chars) (no : Nat) (col : ObjectCollection),
      decodeLines pd bd ver (L.map (·.1) ++ rest) no col
        = decodeLines pd bd ver rest (no + L.length)
            (L.foldl (fun c pr => c.push pr.2) col) := by
  induction L with
  | nil =>
    intro rest no col
    simp
  | cons pr L' ih =>
    intro rest no col
    obtain ⟨hok, hne⟩ := hL pr (by simp)
    rw [List.map_cons, List.cons_append, decodeLines]
    simp only [hne, Bool.false_eq_true, if_false, hok]
    rw [ih (fun y hy => hL y (by simp [hy])) rest (no + 1) (col.push pr.2)]
    have harith : no + 1 + L'.length = no + (L'.length + 1) := by omega
    rw [harith]
    rfl

theorem foldl_push_buildings (bd : List Chars) (L : List Building) :
    ∀ col : ObjectCollection,
      (L.map (fun b => (encodeBuildingLine bd b, SceneObj.building b))).foldl
          (fun c pr => c.push pr.2) col
        = { col with Buildings := col.Buildings ++ L } := by
  induction L with
  | nil => intro col; simp
  | cons b L' ih =>
    intro col
    rw [List.map_cons, List.foldl_cons, ih]
    simp [ObjectCollection.push, List.append_assoc]

theorem foldl_push_paths (pd : List Chars) (L : List Path) :
    ∀ col : ObjectCollection,
      (L.map (fun p => (encodePathLine pd p, SceneObj.path p))).foldl
          (fun c pr => c.push pr.2) col
        = { col with Paths := col.Paths ++ L } := by
  induction L with
  | nil => intro col; simp
  | cons p L' ih =>
    intro col
    rw [List.map_cons, List.foldl_cons, ih]
    simp [ObjectCollection.push, List.append_assoc]

theorem foldl_push_textboxes (L : List TextBox) :
    ∀ col : ObjectCollection,
      (L.map (fun tb => (encodeTextBoxLine tb, SceneObj.textbox tb))).foldl
          (fun c pr => c.push pr.2) col
        = { col with TextBoxes := col.TextBoxes ++ L } := by
  induction L with
  | nil => intro col; simp
  | cons tb L' ih =>
    intro col
    rw [List.map_cons, List.foldl_cons, ih]
    simp [ObjectCollection.push, List.append_assoc]

theorem not_mem_append_chars {c : Char} {a b : Chars} (ha : c ∉ a) (hb : c ∉ b) :
    c ∉ a ++ b := fun h => (List.mem_append.mp h).elim ha hb

theorem not_mem_cons_chars {c d : Char} {b : Chars} (hd : c ≠ d) (hb : c ∉ b) :
    c ∉ d :: b := fun h => (List.mem_cons.mp h).elim hd hb

theorem newline_not_mem_encodeBuildingLine (bd : List Chars) (b : Building)
    (hcls : '\n' ∉ bd.getD b.DefIdx []) : '\n' ∉ encodeBuildingLine bd b :=
  not_mem_append_chars hcls
    (not_mem_cons_chars (by decide)
      (not_mem_append_chars (newline_not_mem_formatInt _)
        (not_mem_cons_chars (by decide)
          (not_mem_append_chars (newline_not_mem_formatInt _)
            (not_mem_cons_chars (by decide) (newline_not_mem_formatInt _))))))

theorem newline_not_mem_encodePathLine (pd : List Chars) (p : Path)
    (hcls : '\n' ∉ pd.getD p.DefIdx []) : '\n' ∉ encodePathLine pd p :=
  not_mem_append_chars hcls
    (not_mem_cons_chars (by decide)
      (not_mem_append_chars (newline_not_mem_formatInt _)
        (not_mem_cons_chars (by decide)
          (not_mem_append_chars (newline_not_mem_formatInt _)
            (not_mem_cons_chars (by decide)
              (not_mem_append_chars (newline_not_mem_formatInt _)
                (not_mem_cons_chars (by decide) (newline_not_mem_formatInt _))))))))

theorem newline_not_mem_encodeTextBoxLine (tb : TextBox) :
    '\n' ∉ encodeTextBoxLine tb :=
  not_mem_append_chars (by decide)
    (not_mem_cons_chars (by decide)
      (not_mem_append_chars (newline_not_mem_formatInt _)
        (not_mem_cons_chars (by decide)
          (not_mem_append_chars (newline_not_mem_formatInt _)
            (not_mem_cons_chars (by decide)
              (not_mem_append_chars (newline_not_mem_formatInt _)
                (not_mem_cons_chars (by decide)
                  (not_mem_append_chars (newline_not_mem_formatInt _)
                    (not_mem_cons_chars (by decide) (newline_not_mem_goQuote _))))))))))

theorem newline_not_mem_getD_class (defs : List Chars) (i : Nat)
    (hgood : ∀ c ∈ defs, goodClass c) : '\n' ∉ defs.getD i [] := by
  by_cases hi : i < defs.length
  · rw [getD_of_lt defs i [] hi]
    exact (hgood defs[i] (List.getElem_mem hi)).2.2
  · rw [List.getD_eq_getElem?_getD, List.getElem?_eq_none (by omega)]
    simp

/-! ### Claim C2 — encode then decode reproduces the collection -/

/-- C2: with well-formed registries and in-range definition indices,
decoding the text produced by `SaveToText` into an empty collection yields
a collection equal to the original: same buildings, paths and text boxes,
with equal fields, in the same per-kind order (text-box contents may
contain quotes, spaces and newlines — the quoting scheme covers them). -/
theorem C2_save_load_roundtrip (pd bd : List Chars) (col : ObjectCollection)
    (hwf : wfDefs pd bd)
    (hp : ∀ p ∈ col.Paths, p.DefIdx < pd.length)
    (hb : ∀ b ∈ col.Buildings, b.DefIdx < bd.length) :
    LoadFromText pd bd {} (SaveToText pd bd col) = .ok col := by
  obtain ⟨hndp, hndb, hpgood, hbgood⟩ := hwf
  have hBnl : ∀ b ∈ col.Buildings, '\n' ∉ encodeBuildingLine bd b := fun b _ =>
    newline_not_mem_encodeBuildingLine bd b
      (newline_not_mem_getD_class bd b.DefIdx (fun c hc => (hbgood c hc).1))
  have hPnl : ∀ p ∈ col.Paths, '\n' ∉ encodePathLine pd p := fun p _ =>
    newline_not_mem_encodePathLine pd p
      (newline_not_mem_getD_class pd p.DefIdx hpgood)
  have hTnl : ∀ tb ∈ col.TextBoxes, '\n' ∉ encodeTextBoxLine tb := fun tb _ =>
    newline_not_mem_encodeTextBoxLine tb
  have hheadnl : '\n' ∉ tagVersion ++ '=' :: formatInt version :=
    not_mem_append_chars (by decide)
      (not_mem_cons_chars (by decide) (newline_not_mem_formatInt _))
  have htbsplit : splitOnChar '\n'
      (col.TextBoxes.flatMap (fun tb => encodeTextBoxLine tb ++ ['\n']))
      = col.TextBoxes.map encodeTextBoxLine ++ [[]] := by
    have h0 := splitOnChar_encBlock '\n' encodeTextBoxLine col.TextBoxes [] hTnl
    rw [List.append_nil] at h0
    rw [h0]
    rfl
  have hlines : splitOnChar '\n' (SaveToText pd bd col)
      = (tagVersion ++ '=' :: formatInt version)
          :: (col.Buildings.map (encodeBuildingLine bd)
            ++ (col.Paths.map (encodePathLine pd)
              ++ (col.TextBoxes.map encodeTextBoxLine ++ [[]]))) := by
    rw [SaveToText, splitOnChar_append_sep '\n' _ _ hheadnl,
      splitOnChar_encBlock '\n' (encodeBuildingLine bd) col.Buildings _ hBnl,
      splitOnChar_encBlock '\n' (encodePathLine pd) col.Paths _ hPnl, htbsplit]
  have hhdne : (tagVersion ++ '=' :: formatInt version).isEmpty = false :=
    append_cons_isEmpty_false tagVersion '=' (formatInt version)
  have hdrop : (tagVersion ++ '=' :: formatInt version).dropPrefix? (tagVersion ++ ['='])
      = some (formatInt version) := by
    have hassoc : tagVersion ++ '=' :: formatInt version
        = (tagVersion ++ ['=']) ++ formatInt version := by simp
    rw [hassoc, dropPrefix?_append]
  rw [LoadFromText]
  simp only [hlines, List.headD_cons, hhdne, Bool.false_eq_true, if_false, hdrop,
    parseIntLead_formatInt, List.drop_succ_cons, List.drop_zero]
  rw [if_neg (by decide), if_pos (by decide), decodeText]
  have hBblock := decodeLines_ok_block pd bd version
    (col.Buildings.map (fun b => (encodeBuildingLine bd b, SceneObj.building b)))
    (by
      intro pr hpr
      obtain ⟨b, hbm, rfl⟩ := List.mem_map.mp hpr
      exact ⟨decodeLine_building pd bd version ⟨hndp, hndb, hpgood, hbgood⟩ b (hb b hbm),
        append_cons_isEmpty_false _ ' ' _⟩)
  have hPblock := decodeLines_ok_block pd bd version
    (col.Paths.map (fun p => (encodePathLine pd p, SceneObj.path p)))
    (by
      intro pr hpr
      obtain ⟨p, hpm, rfl⟩ := List.mem_map.mp hpr
      exact ⟨decodeLine_path pd bd version ⟨hndp, hndb, hpgood, hbgood⟩ p (hp p hpm),
        append_cons_isEmpty_false _ ' ' _⟩)
  have hTblock := decodeLines_ok_block pd bd version
    (col.TextBoxes.map (fun tb => (encodeTextBoxLine tb, SceneObj.textbox tb)))
    (by
      intro pr hpr
      obtain ⟨tb, htm, rfl⟩ := List.mem_map.mp hpr
      exact ⟨decodeLine_textbox pd bd version tb, append_cons_isEmpty_false _ ' ' _⟩)
  have hmapB : col.Buildings.map (encodeBuildingLine bd)
      = (col.Buildings.map (fun b => (encodeBuildingLine bd b, SceneObj.building b))).map
          (·.1) := by
    simp [List.map_map]
  have hmapP : col.Paths.map (encodePathLine pd)
      = (col.Paths.map (fun p => (encodePathLine pd p, SceneObj.path p))).map (·.1) := by
    simp [List.map_map]
  have hmapT : col.TextBoxes.map encodeTextBoxLine
      = (col.TextBoxes.map (fun tb => (encodeTextBoxLine tb, SceneObj.textbox tb))).map
          (·.1) := by
    simp [List.map_map]
  rw [hmapB, hBblock, foldl_push_buildings, hmapP, hPblock, foldl_push_paths,
    hmapT, hTblock, foldl_push_textboxes]
  show decodeLines pd bd version [[]] _ _ = _
  rw [decodeLines]
  simp only [List.isEmpty_nil, if_true]
  rfl

/-- pdSample is a one-entry path registry (C2 witness). -/
def pdSample : List Chars := [['B', 'e', 'l', 't']]

/-- bdSample is a one-entry building registry (C2 witness). -/
def bdSample : List Chars := [['F', 'o', 'o']]

/-- colSample has one building, one path, and one text box whose content
contains literal quote characters (C2 witness). -/
def colSample : ObjectCollection :=
  { Paths := [{ DefIdx := 0, Start := { x := 1, y := 2 }, End := { x := 3, y := -4 } }]
    Buildings := [{ DefIdx := 0, Pos := { x := 5, y := 6 }, Rot := 2 }]
    TextBoxes := [{ Bounds := { x := 0, y := 1, w := 10, h := 4 },
                    Content := ['H', 'e', ' ', '"', 'h', 'i', '"'] }] }

/-- C2 witness: the sample scene (one building, one path, one quoted
text box) round-trips through the codec. -/
theorem C2_save_load_roundtrip_witness :
    wfDefs pdSample bdSample
      ∧ (∀ p ∈ colSample.Paths, p.DefIdx < pdSample.length)
      ∧ (∀ b ∈ colSample.Buildings, b.DefIdx < bdSample.length)
      ∧ LoadFromText pdSample bdSample {} (SaveToText pdSample bdSample colSample)
          = .ok colSample :=
  ⟨by decide, by decide, by decide,
    C2_save_load_roundtrip pdSample bdSample colSample (by decide) (by decide) (by decide)⟩

/-! ### Claim C7 — version line validation -/

theorem splitOnChar_headD_line (line tail : Chars) (hnl : '\n' ∉ line)
    (htail : tail = [] ∨ ∃ r, tail = '\n' :: r) :
    (splitOnChar '\n' (line ++ tail)).headD [] = line := by
  rcases htail with rfl | ⟨r, rfl⟩
  · rw [List.append_nil, splitOnChar_not_mem '\n' line hnl]
    rfl
  · rw [splitOnChar_append_sep '\n' line r hnl]
    rfl

/-- C7: for every positive version `v`, input whose first line is
`#VERSION=<v>` fails with the version-too-high error carrying `v` and
line 1; input whose first line is `hello` fails with the invalid-version-
line error at line 1 (with a wrapped low-level error). -/
theorem C7_version_line_errors (pd bd : List Chars) (col : ObjectCollection)
    (v : Int) (hv : 0 < v) (tail : Chars)
    (htail : tail = [] ∨ ∃ r, tail = '\n' :: r) :
    LoadFromText pd bd col ((tagVersion ++ '=' :: formatInt v) ++ tail)
        = .error { Msg := msgVersionTooHigh, Err := false, Line := 1, Version := v }
      ∧ LoadFromText pd bd col (['h', 'e', 'l', 'l', 'o'] ++ tail)
        = .error { Msg := msgInvalidVersionLine, Err := true, Line := 1, Version := 0 } := by
  constructor
  · have hnl : '\n' ∉ tagVersion ++ '=' :: formatInt v :=
      not_mem_append_chars (by decide)
        (not_mem_cons_chars (by decide) (newline_not_mem_formatInt _))
    have hhead := splitOnChar_headD_line (tagVersion ++ '=' :: formatInt v) tail hnl htail
    have hdrop : (tagVersion ++ '=' :: formatInt v).dropPrefix? (tagVersion ++ ['='])
        = some (formatInt v) := by
      have hassoc : tagVersion ++ '=' :: formatInt v
          = (tagVersion ++ ['=']) ++ formatInt v := by simp
      rw [hassoc, dropPrefix?_append]
    rw [LoadFromText]
    simp only [hhead, append_cons_isEmpty_false, Bool.false_eq_true, if_false, hdrop,
      parseIntLead_formatInt]
    rw [if_neg (by omega), if_neg (by omega)]
  · have hnl : '\n' ∉ (['h', 'e', 'l', 'l', 'o'] : Chars) := by decide
    have hhead := splitOnChar_headD_line ['h', 'e', 'l', 'l', 'o'] tail hnl htail
    have hdrop : (['h', 'e', 'l', 'l', 'o'] : Chars).dropPrefix? (tagVersion ++ ['='])
        = none := by decide
    rw [LoadFromText]
    simp only [hhead, hdrop]
    rfl

/-- C7 witness: the two error behaviours at `#VERSION=1` and `hello` with
no further input. -/
theorem C7_version_line_errors_witness :
    LoadFromText [] [] {} (tagVersion ++ '=' :: formatInt 1)
        = .error { Msg := msgVersionTooHigh, Err := false, Line := 1, Version := 1 }
      ∧ LoadFromText [] [] {} ['h', 'e', 'l', 'l', 'o']
        = .error { Msg := msgInvalidVersionLine, Err := true, Line := 1, Version := 0 } := by
  have h := C7_version_line_errors [] [] {} 1 (by decide) [] (Or.inl rfl)
  constructor
  · have h1 := h.1
    rwa [List.append_nil] at h1
  · have h2 := h.2
    rwa [List.append_nil] at h2

/-! ### Claim C4 — decode error line numbers -/

theorem decodeLines_error_at (pd bd : List Chars) (ver : Int) (bad : Chars)
    (rest : List Chars) (e : DecodeTextError) (hbadne : bad.isEmpty = false)
    (hbad : decodeLine pd bd ver bad = .error e) :
    ∀ (pre : List Chars) (no : Nat) (col : ObjectCollection),
      (∀ l ∈ pre, l.isEmpty = false → (decodeLine pd bd ver l).isOk = true) →
      decodeLines pd bd ver (pre ++ bad :: rest) no col
        = .error { e with Line := no + pre.countP (fun l => !l.isEmpty) } := by
  intro pre
  induction pre with
  | nil =>
    intro no col _
    rw [List.nil_append, decodeLines]
    simp only [hbadne, Bool.false_eq_true, if_false, hbad]
    simp
  | cons l pre' ih =>
    intro no col hpre
    rw [List.cons_append, decodeLines]
    by_cases hle : l.isEmpty = true
    · simp only [hle, if_true]
      rw [ih no col (fun x hx => hpre x (by simp [hx]))]
      have hcount : (l :: pre').countP (fun l => !l.isEmpty) = pre'.countP (fun l => !l.isEmpty) := by
        rw [List.countP_cons_of_neg]
        simp [hle]
      rw [hcount]
    · have hlf : l.isEmpty = false := by
        cases h : l.isEmpty
        · rfl
        · exact absurd h hle
      have hok := hpre l (by simp) hlf
      simp only [hlf, Bool.false_eq_true, if_false]
      cases hdl : decodeLine pd bd ver l with
      | error e2 =>
        rw [hdl] at hok
        exact absurd hok (by simp [Except.isOk, Except.toBool])
      | ok obj =>
        show decodeLines pd bd ver (pre' ++ bad :: rest) (no + 1) (col.push obj) = _
        rw [ih (no + 1) (col.push obj) (fun x hx => hpre x (by simp [hx]))]
        have hcount : (l :: pre').countP (fun l => !l.isEmpty)
            = pre'.countP (fun l => !l.isEmpty) + 1 := by
          rw [List.countP_cons_of_pos]
          simp [hlf]
        rw [hcount]
        have harith : no + 1 + pre'.countP (fun l => !l.isEmpty)
            = no + (pre'.countP (fun l => !l.isEmpty) + 1) := by omega
        rw [harith]

/-- C4 (amended): when decoding fails on a content line, the returned
error carries the failing line's categorized message, attempted version
and wrapped-error flag, and a line number equal to 2 plus the number of
non-blank content lines before the failing one — i.e. 1-based counting of
the header line and of non-blank lines only: blank lines are skipped
without advancing the counter, so the reported number falls short of the
physical line number by the number of preceding blank lines. -/
theorem C4_error_line_numbers (pd bd : List Chars) (col : ObjectCollection)
    (pre : List Chars) (bad : Chars) (rest : List Chars) (e : DecodeTextError)
    (hpre : ∀ l ∈ pre, l.isEmpty = false → (decodeLine pd bd 0 l).isOk = true)
    (hnlpre : ∀ l ∈ pre, '\n' ∉ l) (hnlbad : '\n' ∉ bad)
    (hnlrest : ∀ l ∈ rest, '\n' ∉ l)
    (hbadne : bad.isEmpty = false)
    (hbad : decodeLine pd bd 0 bad = .error e) :
    LoadFromText pd bd col
        ((tagVersion ++ '=' :: formatInt 0) ++ '\n' :: joinLinesNL (pre ++ bad :: rest))
      = .error { e with Line := 2 + pre.countP (fun l => !l.isEmpty) } := by
  have hnl : '\n' ∉ tagVersion ++ '=' :: formatInt 0 :=
    not_mem_append_chars (by decide)
      (not_mem_cons_chars (by decide) (newline_not_mem_formatInt _))
  have hjoin : splitOnChar '\n' (joinLinesNL (pre ++ bad :: rest)) = pre ++ bad :: rest := by
    apply splitOnChar_joinLinesNL
    · intro h
      exact absurd (List.append_eq_nil.mp h).2 (by simp)
    · intro l hl
      rcases List.mem_append.mp hl with h | h
      · exact hnlpre l h
      · rcases List.mem_cons.mp h with h | h
        · exact h ▸ hnlbad
        · exact hnlrest l h
  have hdrop : (tagVersion ++ '=' :: formatInt 0).dropPrefix? (tagVersion ++ ['='])
      = some (formatInt 0) := by
    have hassoc : tagVersion ++ '=' :: formatInt 0
        = (tagVersion ++ ['=']) ++ formatInt 0 := by simp
    rw [hassoc, dropPrefix?_append]
  rw [LoadFromText]
  have hsplit : splitOnChar '\n'
      ((tagVersion ++ '=' :: formatInt 0) ++ '\n' :: joinLinesNL (pre ++ bad :: rest))
      = (tagVersion ++ '=' :: formatInt 0) :: (pre ++ bad :: rest) := by
    rw [splitOnChar_append_sep '\n' _ _ hnl, hjoin]
  simp only [hsplit, List.headD_cons, append_cons_isEmpty_false, Bool.false_eq_true,
    if_false, hdrop, parseIntLead_formatInt, List.drop_succ_cons, List.drop_zero]
  rw [if_neg (by decide), if_pos (by decide), decodeText]
  exact decodeLines_error_at pd bd 0 bad rest e hbadne hbad pre 2 col hpre

/-- C4 counterexample: on the input `#VERSION=0\n\nhello` the failing line
`hello` is the third physical line of the input, yet the returned error
carries line number 2 — the blank second line is skipped without
advancing the counter, so the claim's "counting every physical line of
the input, including blank lines" is false. -/
theorem C4_error_line_numbers_counterexample :
    LoadFromText [] [] {}
        ['#', 'V', 'E', 'R', 'S', 'I', 'O', 'N', '=', '0', '\n', '\n', 'h', 'e', 'l', 'l', 'o']
      = .error { Msg := msgInvalidClass, Err := false, Line := 2, Version := 0 }
    ∧ (2 : Nat) ≠ 3 :=
  ⟨by decide, by decide⟩

/-- preLinesSample is a blank line followed by a decodable building line
(C4 witness). -/
def preLinesSample : List Chars := [[], ['F', 'o', 'o', ' ', '1', ' ', '2', ' ', '3']]

/-- C4 witness: with one blank and one good line before the failing line,
the reported line number is 2 + 1 = 3. -/
theorem C4_error_line_numbers_witness :
    (∀ l ∈ preLinesSample, l.isEmpty = false →
        (decodeLine [] bdSample 0 l).isOk = true)
      ∧ (∀ l ∈ preLinesSample, '\n' ∉ l) ∧ '\n' ∉ (['x'] : Chars)
      ∧ (['x'] : Chars).isEmpty = false
      ∧ decodeLine [] bdSample 0 ['x']
          = .error { Msg := msgInvalidClass, Err := false, Line := 0, Version := 0 }
      ∧ LoadFromText [] bdSample {}
          ((tagVersion ++ '=' :: formatInt 0) ++ '\n' :: joinLinesNL (preLinesSample ++ [['x']]))
        = .error { Msg := msgInvalidClass, Err := false, Line := 3, Version := 0 } := by
  refine ⟨by decide, by decide, by decide, by decide, by decide, ?_⟩
  have h := C4_error_line_numbers [] bdSample {} preLinesSample ['x'] []
    { Msg := msgInvalidClass, Err := false, Line := 0, Version := 0 }
    (by decide) (by decide) (by decide) (by decide) (by decide) (by decide)
  exact h

/-! ### Claim C9 — hit-testing follows the fixed priority order -/

theorem getAtSelPaths_eq_find (g : Geom) (col : ObjectCollection) (pos : Vec2)
    (l : List PathSel) :
    getAtSelPaths g col.Paths pos l
      = (l.flatMap (fun e =>
          (if e.Start then [{ type := .pathStart, Idx := e.Idx }] else [])
            ++ (if e.End then [{ type := .pathEnd, Idx := e.Idx }] else [])
            ++ [{ type := .path, Idx := e.Idx }])).find? (hitTest g col pos) := by
  induction l with
  | nil => rfl
  | cons e rest ih =>
    by_cases hS : e.Start = true <;> by_cases hE : e.End = true <;>
      by_cases h1 : g.checkStartPt (col.Paths[e.Idx]?.getD default) pos = true <;>
      by_cases h2 : g.checkEndPt (col.Paths[e.Idx]?.getD default) pos = true <;>
      by_cases h3 : g.checkBodyPt (col.Paths[e.Idx]?.getD default) pos = true <;>
      simp [getAtSelPaths, hitTest, hS, hE, h1, h2, h3, ih, List.flatMap_cons,
        List.find?_append, List.find?_cons, Option.or]

theorem getAtSelBuildings_eq_find (g : Geom) (col : ObjectCollection) (pos : Vec2)
    (l : List Nat) :
    getAtSelBuildings g col.Buildings pos l
      = (l.map (fun i => ({ type := .building, Idx := i } : Object))).find?
          (hitTest g col pos) := by
  induction l with
  | nil => rfl
  | cons i rest ih =>
    by_cases h : g.rectContains (g.buildingBounds (col.Buildings[i]?.getD default)) pos = true <;>
      simp [getAtSelBuildings, hitTest, h, ih, List.find?_cons]

theorem getAtSelTextBoxes_eq_find (g : Geom) (col : ObjectCollection) (pos : Vec2)
    (l : List Nat) :
    getAtSelTextBoxes g col.TextBoxes pos l
      = (l.map (fun i => ({ type := .textBox, Idx := i } : Object))).find?
          (hitTest g col pos) := by
  induction l with
  | nil => rfl
  | cons i rest ih =>
    by_cases h : g.rectContains (col.TextBoxes[i]?.getD default).Bounds pos = true <;>
      simp [getAtSelTextBoxes, hitTest, h, ih, List.find?_cons]

theorem getAtPaths_eq_find (g : Geom) (col : ObjectCollection) (pos : Vec2)
    (l : List Nat) :
    getAtPaths g col.Paths pos l
      = (l.flatMap (fun i =>
          [({ type := .pathStart, Idx := i } : Object), { type := .pathEnd, Idx := i },
           { type := .path, Idx := i }])).find? (hitTest g col pos) := by
  induction l with
  | nil => rfl
  | cons i rest ih =>
    by_cases h1 : g.checkStartPt (col.Paths[i]?.getD default) pos = true <;>
      by_cases h2 : g.checkEndPt (col.Paths[i]?.getD default) pos = true <;>
      by_cases h3 : g.checkBodyPt (col.Paths[i]?.getD default) pos = true <;>
      simp [getAtPaths, hitTest, h1, h2, h3, ih, List.flatMap_cons, List.find?_append,
        List.find?_cons, Option.or]

/-- C9: for every geometry oracle, selection, collection and world-space
point, `GetObjectAt` equals the specification function: the first object
of the priority-ordered candidate list (selected paths, selected
buildings, selected text boxes, then all paths, buildings, text boxes,
each group from highest index to lowest, with path endpoint hit-zones
before the body) whose geometry contains the point, or the empty
reference. -/
theorem C9_get_object_at_priority (g : Geom) (sel : ObjectSelection)
    (col : ObjectCollection) (pos : Vec2) :
    GetObjectAt g sel col pos = specObjectAt g sel col pos := by
  rw [GetObjectAt, specObjectAt, priorityCandidates,
    getAtSelPaths_eq_find g col pos sel.PathIdxs.reverse,
    getAtSelBuildings_eq_find g col pos sel.BuildingIdxs.reverse,
    getAtSelTextBoxes_eq_find g col pos sel.TextBoxIdxs.reverse,
    getAtPaths_eq_find g col pos (List.range col.Paths.length).reverse,
    getAtSelBuildings_eq_find g col pos (List.range col.Buildings.length).reverse,
    getAtSelTextBoxes_eq_find g col pos (List.range col.TextBoxes.length).reverse,
    List.find?_append, List.find?_append, List.find?_append, List.find?_append,
    List.find?_append]
  cases (sel.PathIdxs.reverse.flatMap (fun e =>
      (if e.Start then [({ type := .pathStart, Idx := e.Idx } : Object)] else [])
        ++ (if e.End then [{ type := .pathEnd, Idx := e.Idx }] else [])
        ++ [{ type := .path, Idx := e.Idx }])).find? (hitTest g col pos) with
  | some o => simp [Option.or]
  | none =>
  simp only [Option.none_or]
  cases (sel.BuildingIdxs.reverse.map
      (fun i => ({ type := .building, Idx := i } : Object))).find? (hitTest g col pos) with
  | some o => simp [Option.or]
  | none =>
  simp only [Option.none_or]
  cases (sel.TextBoxIdxs.reverse.map
      (fun i => ({ type := .textBox, Idx := i } : Object))).find? (hitTest g col pos) with
  | some o => simp [Option.or]
  | none =>
  simp only [Option.none_or]
  cases ((List.range col.Paths.length).reverse.flatMap (fun i =>
      [({ type := .pathStart, Idx := i } : Object), { type := .pathEnd, Idx := i },
       { type := .path, Idx := i }])).find? (hitTest g col pos) with
  | some o => simp [Option.or]
  | none =>
  simp only [Option.none_or]
  cases ((List.range col.Buildings.length).reverse.map
      (fun i => ({ type := .building, Idx := i } : Object))).find? (hitTest g col pos) with
  | some o => simp [Option.or]
  | none =>
  simp only [Option.none_or]
  cases ((List.range col.TextBoxes.length).reverse.map
      (fun i => ({ type := .textBox, Idx := i } : Object))).find? (hitTest g col pos) with
  | some o => rfl
  | none => rfl

end Satisfied
